import Mathlib

/-!
# Verification of the PDF text-extraction service

A shallow embedding, in Lean 4, of `agent_service/app/services/pdf_text_service.py`.

Modelling conventions:

* Python strings are modelled as `List Char` (`Str`); character classes
  (`str.isspace`, `str.isalnum`, `\w`, `\d`, upper/lower case) are modelled at
  ASCII fidelity, plus the non-breaking space U+00A0 which the source handles
  explicitly.
* Python floats are modelled as exact rationals (`ℚ`).  All scores in the
  source are sums of decimal constants; the orderings the theorems establish
  have gaps that dwarf double-precision rounding error, so the rational model
  is faithful for every property stated here.
* `round(x, 3)` is modelled as round-half-to-even at three decimals.
* External capabilities (base64 decoding, the PyMuPDF page source, the OCR
  engine, the on-disk debug dump) are modelled as explicit inputs carrying
  their outcome (`Except`-valued where the Python call can raise), threaded
  through the same try/except structure as the source.
* Python `dict` preserves insertion order; it is modelled as an association
  list updated in place.  Python `sorted` is stable; it is modelled by a
  stable insertion sort on the same comparison key.
-/

namespace PdfTextService

/-- Python strings, modelled as lists of characters. -/
abbrev Str := List Char

/-! ## Python string primitives -/

/-- Characters treated as whitespace by Python's `str.strip` / `str.isspace` /
regex `\s` (ASCII model, plus the non-breaking space U+00A0, which Python also
treats as whitespace). -/
def pyIsSpace (c : Char) : Bool :=
  c = ' ' || c = '\t' || c = '\n' || c = '\r' || c = '\x0b' || c = '\x0c' || c = '\u00A0'

/-- `str.lstrip()`. -/
def pyStripLeft (s : Str) : Str := s.dropWhile pyIsSpace

/-- `str.rstrip()`. -/
def pyStripRight (s : Str) : Str := (s.reverse.dropWhile pyIsSpace).reverse

/-- `str.strip()`. -/
def pyStrip (s : Str) : Str := pyStripRight (pyStripLeft s)

/-- `str.strip(chars)`: strip the characters of `cs` from both ends. -/
def pyStripCharsOf (cs : List Char) (s : Str) : Str :=
  ((s.dropWhile (cs.contains ·)).reverse.dropWhile (cs.contains ·)).reverse

/-- Line-break characters recognised by `str.splitlines` (ASCII model:
`\n`, `\r`, `\v`, `\f`; `\r\n` counts as a single break). -/
def isLineBreakChar (c : Char) : Bool :=
  c = '\n' || c = '\r' || c = '\x0b' || c = '\x0c'

/-- Worker for `str.splitlines`; `acc` is the current line, reversed.
A trailing line break does not produce a final empty line, matching Python. -/
def pySplitlinesGo : Str → Str → List Str
  | acc, [] => if acc = [] then [] else [acc.reverse]
  | acc, '\r' :: '\n' :: rest => acc.reverse :: pySplitlinesGo [] rest
  | acc, c :: rest =>
    if isLineBreakChar c then acc.reverse :: pySplitlinesGo [] rest
    else pySplitlinesGo (c :: acc) rest

/-- `str.splitlines()`. -/
def pySplitlines (s : Str) : List Str := pySplitlinesGo [] s

/-- `"\n".join(lines)` (and, with other separators, `sep.join`). -/
def joinWith (sep : Str) (ls : List Str) : Str := List.intercalate sep ls

/-- Worker for `re.sub(r"[ \t]+", " ", s)`: the flag records whether the
previous character was part of a space/tab run. -/
def collapseSpaceTabGo : Bool → Str → Str
  | _, [] => []
  | prevWs, c :: rest =>
    if c = ' ' || c = '\t' then
      if prevWs then collapseSpaceTabGo true rest
      else ' ' :: collapseSpaceTabGo true rest
    else c :: collapseSpaceTabGo false rest

/-- `re.sub(r"[ \t]+", " ", s)`. -/
def collapseSpaceTab (s : Str) : Str := collapseSpaceTabGo false s

/-- Worker for `re.sub(r"\s+", " ", s)`. -/
def collapseWsGo : Bool → Str → Str
  | _, [] => []
  | prevWs, c :: rest =>
    if pyIsSpace c then
      if prevWs then collapseWsGo true rest
      else ' ' :: collapseWsGo true rest
    else c :: collapseWsGo false rest

/-- `re.sub(r"\s+", " ", s)`. -/
def collapseWs (s : Str) : Str := collapseWsGo false s

/-- Worker for `re.sub(r"\d+", "#", s)`. -/
def collapseDigitsGo : Bool → Str → Str
  | _, [] => []
  | prevDigit, c :: rest =>
    if c.isDigit then
      if prevDigit then collapseDigitsGo true rest
      else '#' :: collapseDigitsGo true rest
    else c :: collapseDigitsGo false rest

/-- `re.sub(r"\d+", "#", s)`. -/
def collapseDigits (s : Str) : Str := collapseDigitsGo false s

/-- `str.lower()` (ASCII model). -/
def pyLower (s : Str) : Str := s.map Char.toLower

/-- `str.isupper()`: at least one cased character and no lowercase cased
character (ASCII model). -/
def pyIsUpper (s : Str) : Bool :=
  s.any (fun c => c.isUpper) && s.all (fun c => !c.isLower)

/-- Regex `\w`: ASCII alphanumeric or underscore. -/
def isWordChar (c : Char) : Bool := c.isAlphanum || c = '_'

/-- Lexicographic comparison of strings by code point, as Python's `<`. -/
def strLt : Str → Str → Bool
  | [], [] => false
  | [], _ :: _ => true
  | _ :: _, [] => false
  | a :: as, b :: bs => if a < b then true else if b < a then false else strLt as bs

/-- Stable insertion of `x` into `l`: `x` goes before the first element it is
strictly below, hence after all elements tied with it. -/
def insertSorted (lt : α → α → Bool) (x : α) : List α → List α
  | [] => [x]
  | y :: ys => if lt x y then x :: y :: ys else y :: insertSorted lt x ys

/-- Python's `sorted(l, key=...)`: a stable sort.  Any stable sort computes the
same list for a strict-weak-order comparison, so insertion sort is a faithful
model of Python's timsort. -/
def pySorted (lt : α → α → Bool) (l : List α) : List α :=
  l.foldl (fun acc x => insertSorted lt x acc) []

/-! ## Module constants (`pdf_text_service.py` lines 37-62) -/

def MIN_NATIVE_TEXT_CHARS : Nat := 48
def MIN_NATIVE_WORDS : Nat := 8
def MIN_ALNUM_RATIO : ℚ := 0.45
def MAX_SYMBOL_RATIO : ℚ := 0.40

def HEADER_FOOTER_SAMPLE_LINES : Nat := 2
def HEADER_FOOTER_REPEAT_RATIO : ℚ := 0.60
def HEADER_FOOTER_MIN_PAGES : Nat := 3

def MAX_VISUAL_SIGNALS_PER_FILE : Nat := 40

/-- `SIGNAL_BASE_SCORES.get(t, 0.2)`: the base-score dictionary with its
default. -/
def SIGNAL_BASE_SCORES (t : Str) : ℚ :=
  if t = "highlight".data then 1.00
  else if t = "underline".data then 0.90
  else if t = "strikeout".data then 0.60
  else if t = "squiggly".data then 0.70
  else if t = "bold".data then 0.45
  else if t = "colored_text".data then 0.35
  else 0.2

/-! ## `QUESTION_TOKEN_RE` and the `question N` search -/

/-- Tail of `QUESTION_TOKEN_RE` after the optional prefix: `\d+[.)]?$`. -/
def numTokenTail (s : Str) : Bool :=
  let ds := s.takeWhile Char.isDigit
  let rest := s.dropWhile Char.isDigit
  !ds.isEmpty && (rest = [] || rest = ['.'] || rest = [')'])

/-- `QUESTION_TOKEN_RE.match(s)`:
`^(?:q(?:uestion)?\s*)?\d+[.)]?$`, case-insensitive.  The regex needs no
backtracking: whenever the greedy `question`/`q` prefix parse fails, the
shorter alternatives fail as well (they would have to read a digit where a
letter stands). -/
def questionTokenMatch (s : Str) : Bool :=
  let l := pyLower s
  if l.take 8 = "question".data then numTokenTail ((l.drop 8).dropWhile pyIsSpace)
  else if l.take 1 = ['q'] then numTokenTail ((l.drop 1).dropWhile pyIsSpace)
  else numTokenTail l

/-- Does `\bquestion\s+\d+\b` match at the start of `s`, given the preceding
character (`none` at the start of the string)? -/
def questionNumHere (prev : Option Char) (s : Str) : Bool :=
  (match prev with
   | none => true
   | some p => !isWordChar p) &&
  ((pyLower s).take 8 = "question".data) &&
  (let r := s.drop 8
   let ws := r.takeWhile pyIsSpace
   let r2 := r.dropWhile pyIsSpace
   let ds := r2.takeWhile Char.isDigit
   let r3 := r2.dropWhile Char.isDigit
   !ws.isEmpty && !ds.isEmpty &&
   (match r3 with
    | [] => true
    | c :: _ => !isWordChar c))

/-- Worker for `re.search(r"\bquestion\s+\d+\b", s, re.IGNORECASE)`. -/
def containsQuestionNumGo : Option Char → Str → Bool
  | prev, s =>
    questionNumHere prev s ||
    (match s with
     | [] => false
     | c :: rest => containsQuestionNumGo (some c) rest)

/-- `re.search(r"\bquestion\s+\d+\b", s, re.IGNORECASE)` as a Boolean. -/
def containsQuestionNum (s : Str) : Bool := containsQuestionNumGo none s

/-! ## Rounding (`round(x, 3)` on a float) -/

/-- Round-half-to-even of a rational to an integer (the rounding Python's
`round` applies; every value these theorems touch is an exact multiple of
10⁻³, where float `round` agrees with the rational model). -/
def roundHalfEven (q : ℚ) : ℤ :=
  let f := ⌊q⌋
  let r := q - (f : ℚ)
  if r < 1/2 then f
  else if 1/2 < r then f + 1
  else if 2 ∣ f then f else f + 1

/-- `round(x, 3)`. -/
def round3 (q : ℚ) : ℚ := (roundHalfEven (q * 1000) : ℚ) / 1000

/-! ## `_score_visual_signal` / `_significance_bucket` -/

/-- The type-derived part of `_score_visual_signal`: the summed base scores
plus the multi-signal bonus `0.1 * (len(signal_types) - 1)`. -/
def typeScore (signal_types : List Str) : ℚ :=
  let s := signal_types.foldl (fun acc t => acc + SIGNAL_BASE_SCORES t) 0
  if 1 < signal_types.length then s + 0.1 * ((signal_types.length : ℚ) - 1) else s

/-- `_score_visual_signal(text, signal_types)` (lines 131-146). -/
def _score_visual_signal (text : Str) (signal_types : List Str) : ℚ :=
  let score := typeScore signal_types
  let s := pyStrip text
  let score :=
    if questionTokenMatch s then score + 0.35
    else if containsQuestionNum s then score + 0.25
    else score
  let score := if s.length ≤ 12 && s.any Char.isDigit then score + 0.15 else score
  round3 (min score 1.7)

/-- `_significance_bucket(score)` (lines 149-154). -/
def _significance_bucket (score : ℚ) : Str :=
  if 1.0 ≤ score then "high".data
  else if 0.65 ≤ score then "medium".data
  else "low".data

/-! ## `_merge_visual_signals` -/

/-- A visual-emphasis signal record (the dict built by `_build_signal`). -/
structure Signal where
  file : Str
  page : Nat
  text : Str
  signal_types : List Str
  score : ℚ
  significance : Str
  source : Str
deriving DecidableEq

/-- The deduplication key of `_merge_visual_signals`:
`(file, page, re.sub(r"\s+", " ", text.strip().lower()))`. -/
def sigKey (s : Signal) : Str × Nat × Str :=
  (s.file, s.page, collapseWs (pyLower (pyStrip s.text)))

/-- `sorted(set(a) | set(b))` for lists of type tags. -/
def sortedUnion (a b : List Str) : List Str :=
  pySorted strLt ((a ++ b).dedup)

/-- The collision branch of `_merge_visual_signals`: update `existing` in
place with `sig`'s types, the max score, the recomputed bucket and the merged
source tag. -/
def mergeInto (existing sig : Signal) : Signal :=
  let sc := max existing.score sig.score
  { existing with
    signal_types := sortedUnion existing.signal_types sig.signal_types
    score := sc
    significance := _significance_bucket sc
    source :=
      if existing.source ≠ sig.source then "annotation+style".data else existing.source }

/-- Insertion-ordered dict update: a fresh key is appended, an existing key's
value is merged in place. -/
def updateEntry : List ((Str × Nat × Str) × Signal) → (Str × Nat × Str) → Signal →
    List ((Str × Nat × Str) × Signal)
  | [], k, s => [(k, s)]
  | (k0, e) :: rest, k, s =>
    if k0 = k then (k0, mergeInto e s) :: rest else (k0, e) :: updateEntry rest k s

/-- The grouping loop of `_merge_visual_signals`, starting from the dict
`m`. -/
def foldUpsertFrom (m : List ((Str × Nat × Str) × Signal)) :
    List Signal → List ((Str × Nat × Str) × Signal)
  | [] => m
  | s :: rest => foldUpsertFrom (updateEntry m (sigKey s) s) rest

/-- The `by_key` dict after the grouping loop of `_merge_visual_signals`. -/
def foldUpsert (signals : List Signal) : List ((Str × Nat × Str) × Signal) :=
  foldUpsertFrom [] signals

/-- The ranking key `(-score, page, text)` of `_merge_visual_signals`, as a
strict comparison. -/
def sigLt (a b : Signal) : Bool :=
  if b.score < a.score then true
  else if a.score = b.score then
    (if a.page < b.page then true
     else if a.page = b.page then strLt a.text b.text
     else false)
  else false

/-- `_merge_visual_signals(signals, limit)` (lines 179-206). -/
def _merge_visual_signals (signals : List Signal) (limit : Nat) : List Signal :=
  let ranked := pySorted sigLt ((foldUpsert signals).map Prod.snd)
  ranked.take limit

/-! ## `_compute_text_quality` / `_should_ocr_page` -/

/-- The metrics dict of `_compute_text_quality`. -/
structure TextQuality where
  chars : Nat
  words : Nat
  alnum_ratio : ℚ
  symbol_ratio : ℚ

/-- Worker for `re.findall(r"[A-Za-z0-9]{2,}", text)`'s length: counts maximal
alphanumeric runs of length at least two; `run` is the current run length. -/
def countWordsGo : Nat → Str → Nat
  | run, [] => if 2 ≤ run then 1 else 0
  | run, c :: rest =>
    if c.isAlphanum then countWordsGo (run + 1) rest
    else (if 2 ≤ run then 1 else 0) + countWordsGo 0 rest

/-- `len(re.findall(r"[A-Za-z0-9]{2,}", text))`. -/
def countWords (text : Str) : Nat := countWordsGo 0 text

/-- `_compute_text_quality(text)` (lines 298-310). -/
def _compute_text_quality (text : Str) : TextQuality :=
  let compact := text.filter (fun c => !pyIsSpace c)
  let chars := compact.length
  let alnum := (compact.filter (fun c => c.isAlphanum)).length
  let symbols := (compact.filter (fun c => !c.isAlphanum)).length
  let words := countWords text
  { chars := chars
    words := words
    alnum_ratio := if chars ≠ 0 then (alnum : ℚ) / (chars : ℚ) else 0.0
    symbol_ratio := if chars ≠ 0 then (symbols : ℚ) / (chars : ℚ) else 1.0 }

/-- `_should_ocr_page(native_text)` (lines 313-324). -/
def _should_ocr_page (native_text : Str) : Bool :=
  let metrics := _compute_text_quality native_text
  if metrics.chars < MIN_NATIVE_TEXT_CHARS then true
  else if metrics.words < MIN_NATIVE_WORDS then true
  else if metrics.alnum_ratio < MIN_ALNUM_RATIO then true
  else if MAX_SYMBOL_RATIO < metrics.symbol_ratio then true
  else false

/-! ## `_normalize_match_line` and `_remove_repeated_headers_and_footers` -/

/-- `_normalize_match_line(line)` (lines 327-331). -/
def _normalize_match_line (line : Str) : Str :=
  pyStripCharsOf " .:-|_".data (collapseWs (collapseDigits (pyLower line)))

/-- The non-blank stripped lines of a page:
`[ln.strip() for ln in text.splitlines() if ln.strip()]`. -/
def nonBlankLines (text : Str) : List Str :=
  ((pySplitlines text).map pyStrip).filter (fun ln => ln ≠ [])

/-- A page's header/footer candidate sample: its first two and last two
non-blank lines. -/
def sampledLines (text : Str) : List Str :=
  let lines := nonBlankLines text
  lines.take HEADER_FOOTER_SAMPLE_LINES ++
    lines.drop (lines.length - HEADER_FOOTER_SAMPLE_LINES)

/-- A page's signature set (Python builds a `set`, so each signature counts at
most once per page): the normalized sampled lines of stripped length 4-140. -/
def pagePatterns (text : Str) : List Str :=
  (((sampledLines text).filter
      (fun ln => 4 ≤ (pyStrip ln).length && (pyStrip ln).length ≤ 140)).map
    _normalize_match_line).dedup

/-- The `Counter` tally: each page contributes one count per non-empty
signature in its pattern set. -/
def tallyPattern (page_texts : List Str) (p : Str) : Nat :=
  page_texts.foldl
    (fun cnt t => cnt + (if p ∈ pagePatterns t ∧ p ≠ [] then 1 else 0)) 0

/-- `max(HEADER_FOOTER_MIN_PAGES, math.ceil(total_pages * 0.60))`.
For every page count the float product `n * 0.6` rounds to a double on the
same side of each integer as the exact rational `3n/5`, so the rational
ceiling is the faithful model. -/
def minOccurrences (total_pages : Nat) : Nat :=
  max HEADER_FOOTER_MIN_PAGES (Int.toNat ⌈(total_pages : ℚ) * HEADER_FOOTER_REPEAT_RATIO⌉)

/-- The `repeated_patterns` set, enumerated as the distinct tallied signatures
whose count reaches the threshold. -/
def repeatedPatterns (page_texts : List Str) : List Str :=
  ((page_texts.map pagePatterns).flatten.dedup).filter
    (fun p => p ≠ [] && minOccurrences page_texts.length ≤ tallyPattern page_texts p)

/-- `_remove_repeated_headers_and_footers(page_texts)` (lines 334-372). -/
def _remove_repeated_headers_and_footers (page_texts : List Str) : List Str :=
  if page_texts.length < HEADER_FOOTER_MIN_PAGES then page_texts
  else
    let repeated := repeatedPatterns page_texts
    if repeated = [] then page_texts
    else
      page_texts.map (fun text =>
        pyStrip (joinWith ['\n']
          (((pySplitlines text).filter
              (fun line => !(repeated.contains (_normalize_match_line line)))).map
            pyStripRight)))

/-! ## `_looks_like_structural_line` and `_unwrap_hard_line_breaks` -/

/-- `re.match(r"^[-*•]\s+", s)`: a bullet marker followed by at least one
whitespace character. -/
def bulletStart : Str → Bool
  | c :: d :: _ => (c = '-' || c = '*' || c = '•') && pyIsSpace d
  | _ => false

/-- `re.match(r"^\d+[.)]\s+", s)`: digits, then `.` or `)`, then whitespace. -/
def numberedStart (s : Str) : Bool :=
  let ds := s.takeWhile Char.isDigit
  match s.dropWhile Char.isDigit with
  | p :: q :: _ => !ds.isEmpty && (p = '.' || p = ')') && pyIsSpace q
  | _ => false

/-- Worker for `re.search(r"\S\s{2,}\S", s)`: `none` while no non-space has
been seen yet, `some k` when the last non-space was followed by `k` spaces so
far. -/
def innerWsRunGo : Option Nat → Str → Bool
  | _, [] => false
  | none, c :: rest =>
    if pyIsSpace c then innerWsRunGo none rest else innerWsRunGo (some 0) rest
  | some k, c :: rest =>
    if pyIsSpace c then innerWsRunGo (some (k + 1)) rest
    else if 2 ≤ k then true else innerWsRunGo (some 0) rest

/-- `re.search(r"\S\s{2,}\S", s)`: an internal whitespace run of length ≥ 2
bounded by non-space characters. -/
def hasInnerWsRun (s : Str) : Bool := innerWsRunGo none s

/-- `_looks_like_structural_line(line)` (lines 375-392). -/
def _looks_like_structural_line (line : Str) : Bool :=
  let s := pyStrip line
  if s = [] then false
  else
    bulletStart s || numberedStart s ||
    (s.getLast? = some ':' && s.length ≤ 90) ||
    s.contains '|' ||
    hasInnerWsRun s ||
    (pyIsUpper s && 3 ≤ s.length && s.length ≤ 80)

/-- `" ".join(paragraph_buffer)`. -/
def joinSpace (ls : List Str) : Str := joinWith [' '] ls

/-- Flushing `paragraph_buffer` into `out_lines`: the joined paragraph is
appended when the buffer is non-empty. -/
def flushBuffer (outLines buf : List Str) : List Str :=
  if buf = [] then outLines else outLines ++ [joinSpace buf]

/-- The line-scanning loop of `_unwrap_hard_line_breaks`: `outLines` is
`out_lines` so far, `buf` is `paragraph_buffer`, both in order.  On a blank
line the buffer is flushed and a single blank separator is appended unless the
output is empty or already ends in one; a structural line flushes the buffer
and is emitted verbatim; a flow line is buffered. -/
def unwrapPhase1 : List Str → List Str → List Str → List Str
  | [], outLines, buf => flushBuffer outLines buf
  | raw :: rest, outLines, buf =>
    if pyStrip raw = [] then
      unwrapPhase1 rest
        (if flushBuffer outLines buf ≠ [] ∧ (flushBuffer outLines buf).getLast? ≠ some []
         then flushBuffer outLines buf ++ [[]]
         else flushBuffer outLines buf) []
    else if _looks_like_structural_line (pyStrip raw) = true then
      unwrapPhase1 rest (flushBuffer outLines buf ++ [pyStrip raw]) []
    else unwrapPhase1 rest outLines (buf ++ [pyStrip raw])

/-- The final loop of `_unwrap_hard_line_breaks`: collapse blank-line runs,
collapse space/tab runs inside each kept line and strip it; the Boolean is
`prev_blank`. -/
def unwrapPhase2 : Bool → List Str → List Str
  | _, [] => []
  | prevBlank, line :: rest =>
    if line = [] then
      if prevBlank then unwrapPhase2 true rest
      else [] :: unwrapPhase2 true rest
    else pyStrip (collapseSpaceTab line) :: unwrapPhase2 false rest

/-- `_unwrap_hard_line_breaks(text)` (lines 395-436). -/
def _unwrap_hard_line_breaks (text : Str) : Str :=
  pyStrip (joinWith ['\n'] (unwrapPhase2 false (unwrapPhase1 (pySplitlines text) [] [])))

/-! ## `_normalize_page_text` -/

/-- `text.replace("\r\n", "\n")`. -/
def replaceCrlf : Str → Str
  | [] => []
  | '\r' :: '\n' :: rest => '\n' :: replaceCrlf rest
  | c :: rest => c :: replaceCrlf rest

/-- `.replace("\r", "\n")`. -/
def replaceCr (s : Str) : Str := s.map (fun c => if c = '\r' then '\n' else c)

/-- `.replace("\u00A0", " ")`: the non-breaking space becomes an ordinary space. -/
def replaceNbsp (s : Str) : Str := s.map (fun c => if c = '\u00A0' then ' ' else c)

/-- `re.sub(r"(?<=\w)-\n(?=\w)", "", s)`: delete a hyphen-newline pair that
sits between two word characters.  The kept look-ahead character is rescanned
as the next match's look-behind, exactly as `re.sub` resumes after the
two-character match. -/
def dehyph : Str → Str
  | [] => []
  | w :: '-' :: '\n' :: x :: rest =>
    if isWordChar w && isWordChar x then w :: dehyph (x :: rest)
    else w :: dehyph ('-' :: '\n' :: x :: rest)
  | c :: rest => c :: dehyph rest

/-- `_normalize_page_text(text)` (lines 439-447). -/
def _normalize_page_text (text : Str) : Str :=
  if text = [] then []
  else pyStrip (_unwrap_hard_line_breaks (dehyph (replaceNbsp (replaceCr (replaceCrlf text)))))

/-! ## Page extraction and document assembly

The PyMuPDF page source, the OCR engine, the base64 decoder and the on-disk
debug dump are external capabilities.  They are modelled as explicit inputs
carrying their outcomes: a `RawPage` carries what the page source and the OCR
adapter returned for one page (`ocrText = ""` models `_extract_ocr_text_from_page`
returning `""` when OCR is unavailable or fails, its only failure behaviour),
and `Except`-valued inputs model calls that can raise. -/

/-- One page as delivered by the external page source: its native text, the
outcome of `_extract_ocr_text_from_page` (empty on OCR failure/absence), and
the visual signals the annotation and style extractors produced for it. -/
structure RawPage where
  nativeText : Str
  ocrText : Str
  annotationSignals : List Signal
  styleSignals : List Signal

/-- The `ExtractedPage` dataclass (lines 65-69). -/
structure ExtractedPage where
  number : Nat
  method : Str
  text : Str
deriving DecidableEq

/-- The per-page body of the extraction loop (lines 490-507): decide
native-vs-OCR, then normalize the chosen text. -/
def buildPage (idx : Nat) (raw : RawPage) : ExtractedPage :=
  let mt : Str × Str :=
    if _should_ocr_page raw.nativeText then
      if raw.ocrText ≠ [] then ("ocr".data, raw.ocrText)
      else ("native".data, raw.nativeText)
    else ("native".data, raw.nativeText)
  { number := idx, method := mt.1, text := _normalize_page_text mt.2 }

/-- `_extract_pages_and_visual_signals(pdf_bytes, filename)` (lines 474-517),
with the external parse outcome made explicit: the `except Exception` around
the document loop turns any parse failure into `([], [])`. -/
def _extract_pages_and_visual_signals
    (parseResult : Except Str (List RawPage)) (collectVisual : Bool) :
    List ExtractedPage × List Signal :=
  match parseResult with
  | .error _ => ([], [])
  | .ok raws =>
    let pages := (List.range raws.length).zip raws |>.map
      (fun p => buildPage (p.1 + 1) p.2)
    let visual_signals :=
      if collectVisual then
        raws.flatMap (fun r => r.annotationSignals ++ r.styleSignals)
      else []
    (pages, _merge_visual_signals visual_signals MAX_VISUAL_SIGNALS_PER_FILE)

/-- `str(n)` for a page number. -/
def natStr (n : Nat) : Str := (Nat.repr n).data

/-- `f"--- Page {number} ({method}) ---"`. -/
def pageMarker (number : Nat) (method : Str) : Str :=
  "--- Page ".data ++ natStr number ++ " (".data ++ method ++ ") ---".data

/-- `extract_pdf_context_from_pdf_bytes(pdf_bytes, filename)` (lines 526-549):
assemble page markers and denoised page texts; a page with no text carries the
`(no text extracted)` placeholder. -/
def extract_pdf_context_from_pdf_bytes
    (parseResult : Except Str (List RawPage)) (collectVisual : Bool) :
    Str × List Signal :=
  let pv := _extract_pages_and_visual_signals parseResult collectVisual
  let pages := pv.1
  if pages = [] then ([], [])
  else
    let normalized_pages := _remove_repeated_headers_and_footers (pages.map (·.text))
    let merged_parts := (pages.zip normalized_pages).flatMap
      (fun p =>
        [pageMarker p.1.number p.1.method,
         if p.2 ≠ [] then p.2 else "(no text extracted)".data])
    (pyStrip (joinWith ['\n'] merged_parts), pv.2)

/-- One attached file of a request, with the outcomes of its external calls
made explicit: `decodeResult` is `_decode_pdf_base64` (which can raise on
corrupt base64), `parseResult` is the PyMuPDF document parse. -/
structure PdfFileInput where
  filename : Str
  decodeResult : Except Str Unit
  parseResult : Except Str (List RawPage)

/-- The `RunAgentRequest` fields the extractor reads: the optional legacy
`pdf_text` (`[]` models the falsy values `None` and `""`), and the attached
files. -/
structure RunAgentRequest where
  pdf_text : Str
  pdf_files : List PdfFileInput

/-- `f"--- File: {filename} ---\\n{text}"` — note that the source's f-string
contains an escaped backslash, so the file delimiter is joined to the text by
the two literal characters `\` and `n`, not by a newline. -/
def fileSection (filename : Str) (text : Str) : Str :=
  "--- File: ".data ++ filename ++ " ---".data ++ ['\\', 'n'] ++ text

/-- The per-file loop of `extract_pdf_context` (lines 576-589): a base64
decode failure skips the file (`continue`); an extraction returning empty text
contributes no part; signals are collected when non-empty. -/
def fileLoop (collectVisual : Bool) : List PdfFileInput → List Str × List Signal
  | [] => ([], [])
  | f :: rest =>
    match f.decodeResult with
    | .error _ => fileLoop collectVisual rest
    | .ok _ =>
      let ts := extract_pdf_context_from_pdf_bytes f.parseResult collectVisual
      let tail := fileLoop collectVisual rest
      ((if ts.1 ≠ [] then [fileSection f.filename ts.1] else []) ++ tail.1,
       (if ts.2 ≠ [] then ts.2 else []) ++ tail.2)

/-- `extract_pdf_context(req)` (lines 566-605).  `dumpResult` is the outcome
of the on-disk debug dump `open(...)`/`write(...)`; the source wraps it in no
`try`, so a failing dump propagates whenever `parts` is non-empty. -/
def extract_pdf_context (req : RunAgentRequest) (collectVisual : Bool)
    (dumpResult : Except Str Unit) : Except Str (Str × List Signal) :=
  let parts0 := if req.pdf_text ≠ [] then [req.pdf_text] else []
  let fl := fileLoop collectVisual req.pdf_files
  let parts := parts0 ++ fl.1
  let visual_signals := _merge_visual_signals fl.2 MAX_VISUAL_SIGNALS_PER_FILE
  if parts ≠ [] then
    match dumpResult with
    | .error e => .error e
    | .ok _ => .ok (joinWith "\n\n".data parts, visual_signals)
  else .ok (joinWith "\n\n".data parts, visual_signals)

section RatKernelEval

/- The Batteries rational-arithmetic primitives are `@[irreducible]`, which
blocks `decide` on concrete score computations; restore the default
reducibility locally so that concrete evaluations can be checked by `decide`. -/
attribute [local semireducible] Rat.add Rat.mul Rat.sub Rat.ofScientific Rat.inv

/-! ## Spec-side formulations

These definitions follow the wording of the specification (for the refinement
statements), to be compared with the definitions above, which follow the
source. -/

/-- Spec wording: "compact (whitespace-stripped) character count". -/
def specCompactChars (t : Str) : Nat := (t.filter (fun c => !pyIsSpace c)).length

/-- Spec wording: the number of compact characters that are alphanumeric. -/
def specAlnumChars (t : Str) : Nat :=
  ((t.filter (fun c => !pyIsSpace c)).filter (fun c => c.isAlphanum)).length

/-- Spec wording: the number of compact characters that are not alphanumeric. -/
def specSymbolChars (t : Str) : Nat :=
  ((t.filter (fun c => !pyIsSpace c)).filter (fun c => !c.isAlphanum)).length

/-! ## C3: the quality classifier's guard structure -/

/-- **C3.** `_should_ocr_page` returns `true` exactly when one of the four
guards holds: compact character count < 48, word count (maximal runs of ≥ 2
alphanumerics) < 8, alphanumeric ratio < 0.45, or symbol ratio > 0.40 (the
ratio guards stated multiplicatively, which for a non-empty compact string is
the ratio comparison; an empty compact string is already caught by the first
guard).  In particular every string with fewer than 48 compact characters is
flagged. -/
theorem should_ocr_page_iff_quality_guards (t : Str) :
    (_should_ocr_page t = true ↔
      specCompactChars t < 48 ∨ countWords t < 8 ∨
        (specAlnumChars t : ℚ) < 0.45 * (specCompactChars t : ℚ) ∨
        (0.40 : ℚ) * (specCompactChars t : ℚ) < (specSymbolChars t : ℚ)) ∧
    (specCompactChars t < 48 → _should_ocr_page t = true) := by
  have key : _should_ocr_page t = true ↔
      specCompactChars t < 48 ∨ countWords t < 8 ∨
        (specAlnumChars t : ℚ) < 0.45 * (specCompactChars t : ℚ) ∨
        (0.40 : ℚ) * (specCompactChars t : ℚ) < (specSymbolChars t : ℚ) := by
    rcases Nat.eq_zero_or_pos (specCompactChars t) with hc | hc
    · have hL : _should_ocr_page t = true := by
        simp only [_should_ocr_page, _compute_text_quality, MIN_NATIVE_TEXT_CHARS]
        rw [if_pos]
        have hc' : (t.filter (fun c => !pyIsSpace c)).length = 0 := hc
        omega
      simp only [hL, true_iff]
      exact Or.inl (by omega)
    · have hne : (t.filter (fun c => !pyIsSpace c)).length ≠ 0 := by
        have : 0 < (t.filter (fun c => !pyIsSpace c)).length := hc
        omega
      have hcq : (0 : ℚ) < ((t.filter (fun c => !pyIsSpace c)).length : ℚ) := by
        exact_mod_cast Nat.pos_of_ne_zero hne
      simp only [_should_ocr_page, _compute_text_quality, MIN_NATIVE_TEXT_CHARS,
        MIN_NATIVE_WORDS, MIN_ALNUM_RATIO, MAX_SYMBOL_RATIO, specCompactChars,
        specAlnumChars, specSymbolChars, countWords, if_pos hne]
      split_ifs with g1 g2 g3 g4
      · simpa using Or.inl g1
      · simpa using Or.inr (Or.inl g2)
      · simpa using Or.inr (Or.inr (Or.inl ((div_lt_iff₀ hcq).mp g3)))
      · simpa using Or.inr (Or.inr (Or.inr ((lt_div_iff₀ hcq).mp g4)))
      · simp only [Bool.false_eq_true, false_iff]
        push_neg
        refine ⟨by omega, by omega, ?_, ?_⟩
        · exact (le_div_iff₀ hcq).mp (not_lt.mp g3)
        · exact (div_le_iff₀ hcq).mp (not_lt.mp g4)
  exact ⟨key, fun h => key.mpr (Or.inl h)⟩

/-- Witness for C3: the empty page has 0 < 48 compact characters and is
flagged for OCR. -/
theorem should_ocr_page_iff_quality_guards_witness : _should_ocr_page [] = true :=
  (should_ocr_page_iff_quality_guards []).2 (by decide)

/-! ## Shared helper lemmas -/

/-- Stripping only removes characters. -/
theorem mem_pyStrip {c : Char} {s : Str} (h : c ∈ pyStrip s) : c ∈ s := by
  unfold pyStrip pyStripRight pyStripLeft at h
  rw [List.mem_reverse] at h
  have h2 := (List.dropWhile_sublist _).subset h
  rw [List.mem_reverse] at h2
  exact (List.dropWhile_sublist _).subset h2

/-- Round-half-even fixes integers. -/
theorem roundHalfEven_intCast (m : ℤ) : roundHalfEven (m : ℚ) = m := by
  unfold roundHalfEven
  rw [Int.floor_intCast]
  norm_num

/-- `round(q, 3)` fixes any rational that is an integer multiple of `1/1000`. -/
theorem round3_eq_self (q : ℚ) (m : ℤ) (h : q * 1000 = (m : ℚ)) : round3 q = q := by
  unfold round3
  rw [h, roundHalfEven_intCast]
  have : (m : ℚ) = q * 1000 := h.symm
  linarith

/-- Every base score is an integer multiple of `1/20`. -/
theorem SIGNAL_BASE_SCORES_div20 (t : Str) : ∃ n : ℤ, SIGNAL_BASE_SCORES t = (n : ℚ) / 20 := by
  unfold SIGNAL_BASE_SCORES
  split_ifs
  exacts [⟨20, by norm_num⟩, ⟨18, by norm_num⟩, ⟨12, by norm_num⟩, ⟨14, by norm_num⟩,
    ⟨9, by norm_num⟩, ⟨7, by norm_num⟩, ⟨4, by norm_num⟩]

/-- The type-derived score is an integer multiple of `1/20`. -/
theorem typeScore_div20 (types : List Str) : ∃ n : ℤ, typeScore types = (n : ℚ) / 20 := by
  have base : ∀ (l : List Str) (acc : ℚ), (∃ n : ℤ, acc = (n : ℚ) / 20) →
      ∃ n : ℤ, l.foldl (fun a t => a + SIGNAL_BASE_SCORES t) acc = (n : ℚ) / 20 := by
    intro l
    induction l with
    | nil => intro acc h; exact h
    | cons t ts ih =>
      intro acc h
      obtain ⟨n, hn⟩ := h
      obtain ⟨m, hm⟩ := SIGNAL_BASE_SCORES_div20 t
      refine ih (acc + SIGNAL_BASE_SCORES t) ⟨n + m, ?_⟩
      rw [hn, hm]
      push_cast
      ring
  unfold typeScore
  obtain ⟨n, hn⟩ := base types 0 ⟨0, by norm_num⟩
  split_ifs with h
  · refine ⟨n + 2 * ((types.length : ℤ) - 1), ?_⟩
    rw [hn]
    push_cast
    ring
  · exact ⟨n, hn⟩

/-- `round(min(q, 1.7), 3)` is the identity on multiples of `1/20`. -/
theorem round3_min_cap_div20 (n : ℤ) :
    round3 (min ((n : ℚ) / 20) 1.7) = min ((n : ℚ) / 20) 1.7 := by
  rcases min_choice ((n : ℚ) / 20) 1.7 with h | h <;> rw [h]
  · exact round3_eq_self _ (50 * n) (by push_cast; ring)
  · exact round3_eq_self _ 1700 (by norm_num)

/-! ## C5: question-token boost versus the score cap -/

/-- The score of text `"Q3"`: the question-token boost (+0.35) and the short
numeric boost (+0.15) both fire. -/
theorem score_Q3_eq (types : List Str) :
    _score_visual_signal "Q3".data types = round3 (min (typeScore types + 1/2) 1.7) := by
  have h1 : pyStrip "Q3".data = "Q3".data := by decide
  have h2 : questionTokenMatch "Q3".data = true := by decide
  have h3 : ("Q3".data.length ≤ 12 && "Q3".data.any Char.isDigit) = true := by decide
  simp only [_score_visual_signal, h1, h2, h3, if_true]
  rw [add_assoc]
  norm_num

/-- The score of a digit-free, non-question text: no boost fires. -/
theorem score_plain_eq (text : Str) (types : List Str)
    (hq : questionTokenMatch (pyStrip text) = false)
    (hs : containsQuestionNum (pyStrip text) = false)
    (hd : (pyStrip text).any Char.isDigit = false) :
    _score_visual_signal text types = round3 (min (typeScore types) 1.7) := by
  simp only [_score_visual_signal, hq, hs, hd, Bool.false_eq_true, if_false, Bool.and_false]

/-- **C5 (counterexample).** With `signal_types = [highlight, underline]` the
pre-cap scores are 2.5 ("Q3") and 2.0 ("hello"), both above the 1.7 cap, so
the two signals score exactly the same even though "hello" contains no digit,
is no question-number token and contains no "question N": the claimed strict
inequality fails at the cap. -/
theorem score_Q3_cap_tie_counterexample :
    _score_visual_signal "Q3".data ["highlight".data, "underline".data] =
      _score_visual_signal "hello".data ["highlight".data, "underline".data] ∧
    (∀ c ∈ "hello".data, c.isDigit = false) ∧
    questionTokenMatch (pyStrip "hello".data) = false ∧
    containsQuestionNum (pyStrip "hello".data) = false := by
  refine ⟨by decide, by decide, by decide, by decide⟩

/-- **C5 (amended).** For every set of `signal_types` whose combined base
score (summed base scores plus the multi-type bonus) is below the 1.7 cap, a
signal with text exactly `"Q3"` scores strictly higher than a signal with the
same `signal_types` whose text contains no digit, is not a question-number
token, and does not contain "question N".  (At or above the cap both scores
clamp to 1.7 and are equal, as the counterexample shows.) -/
theorem score_Q3_gt_plain_below_cap (text : Str) (types : List Str)
    (hd : ∀ c ∈ text, c.isDigit = false)
    (hq : questionTokenMatch (pyStrip text) = false)
    (hs : containsQuestionNum (pyStrip text) = false)
    (hcap : typeScore types < 1.7) :
    _score_visual_signal "Q3".data types > _score_visual_signal text types := by
  have hd' : (pyStrip text).any Char.isDigit = false := by
    rw [List.any_eq_false]
    intro c hc
    simp [hd c (mem_pyStrip hc)]
  rw [score_plain_eq text types hq hs hd', score_Q3_eq]
  obtain ⟨n, hn⟩ := typeScore_div20 types
  have hsum : typeScore types + 1/2 = ((n + 10 : ℤ) : ℚ) / 20 := by
    rw [hn]; push_cast; ring
  rw [hn] at hcap
  rw [hsum, hn, round3_min_cap_div20, round3_min_cap_div20]
  rw [min_eq_left (le_of_lt hcap)]
  refine lt_min ?_ hcap
  have : ((n : ℚ)) < ((n + 10 : ℤ) : ℚ) := by push_cast; linarith
  linarith

/-- Witness for C5: `"Q3"` with a single highlight scores 1.5, strictly above
the 1.0 of a highlighted plain text. -/
theorem score_Q3_gt_plain_below_cap_witness :
    (∀ c ∈ "overview paragraph".data, c.isDigit = false) ∧
    typeScore ["highlight".data] < 1.7 ∧
    _score_visual_signal "Q3".data ["highlight".data] >
      _score_visual_signal "overview paragraph".data ["highlight".data] :=
  ⟨by decide, by decide,
    score_Q3_gt_plain_below_cap "overview paragraph".data ["highlight".data]
      (by decide) (by decide) (by decide) (by decide)⟩

/-! ## C7: a failing debug dump propagates out of `extract_pdf_context` -/

/-- **C7 (code evaluated at the failing input).** The on-disk debug dump is
written with a bare `open(...)`/`write(...)` (no `try`), so when the dump
raises — here modelled by a failing dump outcome — and `parts` is non-empty,
`extract_pdf_context` propagates the error instead of returning the
`(combined_text, signals)` pair.  This contradicts the claim (and the spec's
stated contract) that a dump failure must not fail the request. -/
theorem extract_pdf_context_dump_failure_propagates :
    extract_pdf_context ⟨"legacy context".data, []⟩ true (.error "disk full".data) =
      .error "disk full".data := by
  rfl

/-! ## C8: corrupt or undecodable files are skipped -/

/-- A file whose base64 decode and PDF parse both succeeded. -/
def fileOk (f : PdfFileInput) : Bool :=
  (match f.decodeResult with | .ok _ => true | .error _ => false) &&
  (match f.parseResult with | .ok _ => true | .error _ => false)

/-- **C8.** A file whose bytes fail to parse yields the empty bundle
`("", [])`, and the per-file loop of `extract_pdf_context` computes the same
parts and signals as if every failed file (base64 decode error or PDF parse
error) had been dropped from the request: failed files are skipped and
processing continues with the remaining files.  The loop itself is total —
both failure sites are caught inside it, mirroring the source's
`try`/`except` and the `except Exception` inside
`_extract_pages_and_visual_signals`. -/
theorem corrupt_files_skipped (cv : Bool) :
    (∀ e : Str, extract_pdf_context_from_pdf_bytes (.error e) cv = ([], [])) ∧
    (∀ files : List PdfFileInput,
      fileLoop cv files = fileLoop cv (files.filter fileOk)) := by
  constructor
  · intro e
    rfl
  · intro files
    induction files with
    | nil => rfl
    | cons f rest ih =>
      rcases hd : f.decodeResult with e | u
      · simp only [fileLoop, hd, List.filter_cons, fileOk, hd]
        rw [if_neg (by simp [fileOk, hd])]
        exact ih
      · rcases hp : f.parseResult with e | raws
        · have hnot : ¬fileOk f = true := by simp [fileOk, hd, hp]
          rw [List.filter_cons, if_neg hnot]
          have hts : extract_pdf_context_from_pdf_bytes f.parseResult cv = ([], []) := by
            rw [hp]; rfl
          simp only [fileLoop, hd, hts, ne_eq, not_true_eq_false, if_false,
            List.nil_append, ih, Prod.mk.eta]
        · have hok : fileOk f = true := by simp [fileOk, hd, hp]
          rw [List.filter_cons, if_pos hok]
          simp only [fileLoop, hd, ih]

/-! ## C9: OCR fallback keeps native text and the "native" label -/

/-- **C9.** For every page of a successfully parsed document: if the OCR step
returned empty text (it is unavailable or failed), the page is still emitted
with its normalized native text under method `"native"` — even when the page
was flagged `should_ocr`; and the method is `"ocr"` exactly when the page was
flagged and OCR produced non-empty text, in which case the OCR text is used. -/
theorem ocr_failure_keeps_native_page (raws : List RawPage) (cv : Bool) (i : Nat)
    (hi : i < raws.length) :
    ∃ p : ExtractedPage,
      ((_extract_pages_and_visual_signals (.ok raws) cv).1).get? i = some p ∧
      p.number = i + 1 ∧
      (raws[i].ocrText = [] →
        p.method = "native".data ∧
        p.text = _normalize_page_text raws[i].nativeText) ∧
      (p.method = "ocr".data ↔
        _should_ocr_page raws[i].nativeText = true ∧ raws[i].ocrText ≠ []) ∧
      (p.method = "ocr".data → p.text = _normalize_page_text raws[i].ocrText) := by
  refine ⟨buildPage (i + 1) raws[i], ?_, ?_, ?_, ?_, ?_⟩
  · simp only [_extract_pages_and_visual_signals]
    rw [List.get?_eq_getElem?, List.getElem?_map]
    rw [show ((List.range raws.length).zip raws)[i]? = some (i, raws[i]) from ?_]
    · rfl
    · rw [List.getElem?_zip_eq_some]
      exact ⟨by simp [List.getElem?_range, hi], List.getElem?_eq_getElem hi⟩
  · rfl
  · intro hocr
    unfold buildPage
    rcases hso : _should_ocr_page raws[i].nativeText with _ | _
    · simp [hso]
    · simp [hso, hocr]
  · unfold buildPage
    rcases hso : _should_ocr_page raws[i].nativeText with _ | _
    · simp [hso]
    · by_cases hocr : raws[i].ocrText = []
      · simp [hso, hocr]
      · simp [hso, hocr]
  · unfold buildPage
    rcases hso : _should_ocr_page raws[i].nativeText with _ | _
    · simp [hso]
    · by_cases hocr : raws[i].ocrText = []
      · simp [hso, hocr]
      · simp [hso, hocr]

/-- Witness for C9: a one-page document whose native text is symbol noise
(flagged for OCR) and whose OCR outcome is empty keeps the native text and
the `"native"` label. -/
theorem ocr_failure_keeps_native_page_witness :
    (0 : Nat) < ([⟨"%%%$$$###@@!!??**".data, [], [], []⟩] : List RawPage).length ∧
    ∃ p : ExtractedPage,
      ((_extract_pages_and_visual_signals
          (.ok [⟨"%%%$$$###@@!!??**".data, [], [], []⟩]) true).1).get? 0 = some p ∧
      p.method = "native".data ∧
      p.text = _normalize_page_text "%%%$$$###@@!!??**".data := by
  refine ⟨by decide, ?_⟩
  obtain ⟨p, h1, -, h3, -, -⟩ :=
    ocr_failure_keeps_native_page [⟨"%%%$$$###@@!!??**".data, [], [], []⟩] true 0 (by decide)
  obtain ⟨hm, ht⟩ := h3 (by decide)
  exact ⟨p, h1, hm, ht⟩

/-! ## C6: the file delimiter is not placed on its own line -/

deriving instance DecidableEq for Except

/-- **C6 (code evaluated at the failing input).** For a request with no
legacy text and one file `a.pdf` whose single page extracts the text
`hello`, the combined text is the file delimiter joined to the page text by
the two literal characters `\` and `n` — the source writes the f-string
`"--- File: {filename} ---\\n{text}"`, whose `\\n` is an escaped backslash,
not a newline.  The claimed layout (delimiter line on its own line, followed
by the page marker) is therefore not produced.  Pages with no extractable
text do carry the `(no text extracted)` placeholder, and each page yields
exactly one marker (second conjunct). -/
theorem file_delimiter_not_on_own_line :
    extract_pdf_context
        ⟨[], [⟨"a.pdf".data, .ok (), .ok [⟨"hello".data, [], [], []⟩]⟩]⟩ true (.ok ()) =
      .ok ("--- File: a.pdf ---".data ++ ['\\', 'n'] ++
            "--- Page 1 (native) ---\nhello".data, []) ∧
    "--- File: a.pdf ---".data ++ ['\\', 'n'] ++ "--- Page 1 (native) ---\nhello".data ≠
      "--- File: a.pdf ---\n--- Page 1 (native) ---\nhello".data ∧
    (extract_pdf_context_from_pdf_bytes (.ok [⟨[], [], [], []⟩]) true).1 =
      "--- Page 1 (native) ---\n(no text extracted)".data := by
  refine ⟨by decide, by decide, by decide⟩

/-! ## C2: the merge step — association-dict machinery -/

/-- Lookup in the insertion-ordered dict. -/
def lookupKey : List ((Str × Nat × Str) × Signal) → (Str × Nat × Str) → Option Signal
  | [], _ => none
  | (k0, v) :: rest, k => if k0 = k then some v else lookupKey rest k

/-- The accumulated merge of a run of same-key signals into an optional
existing entry. -/
def mergeAcc : Option Signal → List Signal → Option Signal
  | acc, [] => acc
  | none, s :: rest => mergeAcc (some s) rest
  | some e, s :: rest => mergeAcc (some (mergeInto e s)) rest

/-- The number of distinct dedup keys among the input signals. -/
def numKeys (signals : List Signal) : Nat := ((signals.map sigKey).dedup).length

/-- The dict invariant: every stored value's key is its own signature. -/
def keyInvariant (m : List ((Str × Nat × Str) × Signal)) : Prop :=
  ∀ e ∈ m, sigKey e.2 = e.1

theorem sigKey_mergeInto (e s : Signal) : sigKey (mergeInto e s) = sigKey e := rfl

theorem lookupKey_updateEntry_none (m : List ((Str × Nat × Str) × Signal))
    (k : Str × Nat × Str) (s : Signal) (h : lookupKey m k = none) :
    lookupKey (updateEntry m k s) k = some s := by
  induction m with
  | nil => simp [updateEntry, lookupKey]
  | cons e rest ih =>
    obtain ⟨k0, v⟩ := e
    by_cases hk : k0 = k
    · simp [lookupKey, hk] at h
    · simp only [lookupKey, hk, if_false] at h
      simp [updateEntry, lookupKey, hk, ih h]

theorem lookupKey_updateEntry_some (m : List ((Str × Nat × Str) × Signal))
    (k : Str × Nat × Str) (s e : Signal) (h : lookupKey m k = some e) :
    lookupKey (updateEntry m k s) k = some (mergeInto e s) := by
  induction m with
  | nil => simp [lookupKey] at h
  | cons p rest ih =>
    obtain ⟨k0, v⟩ := p
    by_cases hk : k0 = k
    · simp [lookupKey, hk] at h
      subst h
      simp [updateEntry, lookupKey, hk]
    · simp only [lookupKey, hk, if_false] at h
      simp [updateEntry, lookupKey, hk, ih h]

theorem lookupKey_updateEntry_ne (m : List ((Str × Nat × Str) × Signal))
    (k k' : Str × Nat × Str) (s : Signal) (h : k' ≠ k) :
    lookupKey (updateEntry m k s) k' = lookupKey m k' := by
  have h0 : ¬(k = k') := fun hh => h (Eq.symm hh)
  induction m with
  | nil => simp [updateEntry, lookupKey, h0]
  | cons p rest ih =>
    obtain ⟨k0, v⟩ := p
    by_cases hk : k0 = k
    · subst hk
      simp [updateEntry, lookupKey, h0]
    · simp [updateEntry, lookupKey, hk, ih]

theorem mem_keys_updateEntry (m : List ((Str × Nat × Str) × Signal))
    (k k' : Str × Nat × Str) (s : Signal) :
    k' ∈ (updateEntry m k s).map Prod.fst ↔ k' ∈ m.map Prod.fst ∨ k' = k := by
  induction m with
  | nil => simp [updateEntry]
  | cons p rest ih =>
    obtain ⟨k0, v⟩ := p
    by_cases hk : k0 = k
    · subst hk
      have hupd : updateEntry ((k0, v) :: rest) k0 s = (k0, mergeInto v s) :: rest := by
        simp [updateEntry]
      rw [hupd]
      simp only [List.map_cons, List.mem_cons]
      tauto
    · simp only [updateEntry, if_neg hk, List.map_cons, List.mem_cons, ih]
      tauto

theorem nodup_keys_updateEntry (m : List ((Str × Nat × Str) × Signal))
    (k : Str × Nat × Str) (s : Signal) (h : (m.map Prod.fst).Nodup) :
    ((updateEntry m k s).map Prod.fst).Nodup := by
  induction m with
  | nil => simp [updateEntry]
  | cons p rest ih =>
    obtain ⟨k0, v⟩ := p
    simp only [List.map_cons, List.nodup_cons] at h
    by_cases hk : k0 = k
    · subst hk
      have hupd : updateEntry ((k0, v) :: rest) k0 s = (k0, mergeInto v s) :: rest := by
        simp [updateEntry]
      rw [hupd]
      simp only [List.map_cons, List.nodup_cons]
      exact h
    · simp only [updateEntry, if_neg hk, List.map_cons, List.nodup_cons]
      refine ⟨?_, ih h.2⟩
      rw [mem_keys_updateEntry]
      rintro (hh | hh)
      · exact h.1 hh
      · exact hk hh

theorem keyInvariant_updateEntry (m : List ((Str × Nat × Str) × Signal))
    (k : Str × Nat × Str) (s : Signal) (hs : sigKey s = k) (h : keyInvariant m) :
    keyInvariant (updateEntry m k s) := by
  induction m with
  | nil =>
    intro e he
    simp only [updateEntry, List.mem_singleton] at he
    subst he
    exact hs
  | cons p rest ih =>
    obtain ⟨k0, v⟩ := p
    have hv : sigKey v = k0 := h (k0, v) (List.mem_cons_self _ _)
    have hrest : keyInvariant rest := fun e he => h e (List.mem_cons_of_mem _ he)
    by_cases hk : k0 = k
    · intro e he
      simp only [updateEntry, if_pos hk, List.mem_cons] at he
      rcases he with he | he
      · subst he
        simp [sigKey_mergeInto, hv]
      · exact hrest e he
    · intro e he
      simp only [updateEntry, if_neg hk, List.mem_cons] at he
      rcases he with he | he
      · subst he; exact hv
      · exact ih hrest e he

theorem lookupKey_foldUpsertFrom (signals : List Signal) :
    ∀ (m : List ((Str × Nat × Str) × Signal)) (k : Str × Nat × Str),
      lookupKey (foldUpsertFrom m signals) k =
        mergeAcc (lookupKey m k) (signals.filter (fun s => decide (sigKey s = k))) := by
  induction signals with
  | nil => intro m k; simp [foldUpsertFrom, mergeAcc]
  | cons s rest ih =>
    intro m k
    rw [foldUpsertFrom, ih]
    by_cases hk : sigKey s = k
    · subst hk
      rw [List.filter_cons, if_pos (by simp)]
      rcases hl : lookupKey m (sigKey s) with _ | e
      · rw [lookupKey_updateEntry_none m (sigKey s) s hl]
        rfl
      · rw [lookupKey_updateEntry_some m (sigKey s) s e hl]
        rfl
    · rw [List.filter_cons, if_neg (by simp only [decide_eq_true_eq]; exact hk),
        lookupKey_updateEntry_ne m (sigKey s) k s (fun hh => hk (Eq.symm hh))]

theorem nodup_keys_foldUpsertFrom (signals : List Signal) :
    ∀ m, (m.map Prod.fst).Nodup → ((foldUpsertFrom m signals).map Prod.fst).Nodup := by
  induction signals with
  | nil => intro m h; exact h
  | cons s rest ih =>
    intro m h
    exact ih _ (nodup_keys_updateEntry m (sigKey s) s h)

theorem keyInvariant_foldUpsertFrom (signals : List Signal) :
    ∀ m, keyInvariant m → keyInvariant (foldUpsertFrom m signals) := by
  induction signals with
  | nil => intro m h; exact h
  | cons s rest ih =>
    intro m h
    exact ih _ (keyInvariant_updateEntry m (sigKey s) s rfl h)

theorem mem_keys_foldUpsertFrom (signals : List Signal) :
    ∀ m (k : Str × Nat × Str),
      k ∈ (foldUpsertFrom m signals).map Prod.fst ↔
        k ∈ m.map Prod.fst ∨ k ∈ signals.map sigKey := by
  induction signals with
  | nil =>
    intro m k
    rw [show foldUpsertFrom m [] = m from rfl]
    constructor
    · exact fun h => Or.inl h
    · rintro (h | h)
      · exact h
      · rw [List.map_nil] at h
        exact absurd h (List.not_mem_nil k)
  | cons s rest ih =>
    intro m k
    have h1 : foldUpsertFrom m (s :: rest) = foldUpsertFrom (updateEntry m (sigKey s) s) rest :=
      rfl
    rw [h1, ih (updateEntry m (sigKey s) s) k, mem_keys_updateEntry m (sigKey s) k s]
    simp only [List.map_cons, List.mem_cons]
    tauto

theorem filter_values_of_not_mem (m : List ((Str × Nat × Str) × Signal))
    (k : Str × Nat × Str) (hnot : k ∉ m.map Prod.fst) (hinv : keyInvariant m) :
    (m.map Prod.snd).filter (fun v => decide (sigKey v = k)) = [] := by
  induction m with
  | nil => rfl
  | cons p rest ih =>
    obtain ⟨k0, v⟩ := p
    simp only [List.map_cons, List.mem_cons] at hnot
    push_neg at hnot
    have hv : sigKey v = k0 := hinv (k0, v) (List.mem_cons_self _ _)
    have hcond : ¬(decide (sigKey v = k) = true) := by
      simp only [decide_eq_true_eq, hv]
      exact fun hh => hnot.1 (Eq.symm hh)
    rw [List.map_cons, List.filter_cons, if_neg hcond]
    exact ih hnot.2 (fun e he => hinv e (List.mem_cons_of_mem _ he))

theorem filter_values_eq_lookup (m : List ((Str × Nat × Str) × Signal))
    (k : Str × Nat × Str) (hnodup : (m.map Prod.fst).Nodup) (hinv : keyInvariant m) :
    (m.map Prod.snd).filter (fun v => decide (sigKey v = k)) = (lookupKey m k).toList := by
  induction m with
  | nil => rfl
  | cons p rest ih =>
    obtain ⟨k0, v⟩ := p
    simp only [List.map_cons, List.nodup_cons] at hnodup
    have hv : sigKey v = k0 := hinv (k0, v) (List.mem_cons_self _ _)
    have hrest : keyInvariant rest := fun e he => hinv e (List.mem_cons_of_mem _ he)
    by_cases hk : k0 = k
    · subst hk
      rw [List.map_cons, List.filter_cons, if_pos (by simp [hv])]
      rw [filter_values_of_not_mem rest k0 hnodup.1 hrest]
      simp [lookupKey]
    · rw [List.map_cons, List.filter_cons, if_neg (by simp [hv, hk])]
      simp only [lookupKey, hk, if_false]
      exact ih hnodup.2 hrest

theorem insertSorted_perm (lt : α → α → Bool) (x : α) (l : List α) :
    (insertSorted lt x l).Perm (x :: l) := by
  induction l with
  | nil => exact List.Perm.refl _
  | cons y ys ih =>
    rw [insertSorted]
    split_ifs
    · exact List.Perm.refl _
    · exact (List.Perm.cons y ih).trans (List.Perm.swap x y ys)

theorem pySorted_perm (lt : α → α → Bool) (l : List α) : (pySorted lt l).Perm l := by
  have aux : ∀ (l' : List α) (acc : List α),
      (l'.foldl (fun acc x => insertSorted lt x acc) acc).Perm (acc ++ l') := by
    intro l'
    induction l' with
    | nil => intro acc; simp
    | cons x xs ih =>
      intro acc
      rw [List.foldl_cons]
      refine (ih (insertSorted lt x acc)).trans ?_
      refine (List.Perm.append_right xs (insertSorted_perm lt x acc)).trans ?_
      exact (List.perm_middle).symm
  simpa using aux l []

theorem mem_sortedUnion (a b : List Str) (x : Str) :
    x ∈ sortedUnion a b ↔ x ∈ a ∨ x ∈ b := by
  unfold sortedUnion
  rw [(pySorted_perm strLt _).mem_iff, List.mem_dedup, List.mem_append]

theorem length_foldUpsert (signals : List Signal) :
    (foldUpsert signals).length = numKeys signals := by
  have hkeys : ((foldUpsert signals).map Prod.fst).Nodup :=
    nodup_keys_foldUpsertFrom signals [] (by simp)
  have hmem : ∀ k, k ∈ (foldUpsert signals).map Prod.fst ↔ k ∈ signals.map sigKey := by
    intro k
    rw [foldUpsert, mem_keys_foldUpsertFrom]
    simp
  have hd : ((signals.map sigKey).dedup).Nodup := List.nodup_dedup _
  have hsame : ((foldUpsert signals).map Prod.fst).toFinset =
      ((signals.map sigKey).dedup).toFinset := by
    ext k
    simp only [List.mem_toFinset, List.mem_dedup, hmem]
  have h1 := List.toFinset_card_of_nodup hkeys
  have h2 := List.toFinset_card_of_nodup hd
  have : ((foldUpsert signals).map Prod.fst).length = ((signals.map sigKey).dedup).length := by
    rw [← h1, ← h2, hsame]
  simpa [numKeys, List.length_map] using this

/-- **C2 (amended).** After `_merge_visual_signals` no two output signals
share the dedup key (file, page, lowercase whitespace-collapsed text); and
whenever exactly two input signals share a key — i.e. two signals with
case/whitespace-equivalent text on the same (file, page) — and the number of
distinct keys does not exceed the cap `limit`, they collapse into exactly one
output signal whose `signal_types` is the union of the inputs' types, whose
score is the maximum of the inputs' scores, and whose significance is
recomputed from that new score (the provenance fields come from the
first-seen signal).  Without the cap condition the collapsed signal can be
cut from the top-`limit` ranking altogether (see the counterexample). -/
theorem merge_visual_signals_dedup_and_union (signals : List Signal) (limit : Nat) :
    List.Pairwise (fun a b => sigKey a ≠ sigKey b) (_merge_visual_signals signals limit) ∧
    (∀ s1 s2 : Signal,
      signals.filter (fun s => decide (sigKey s = sigKey s1)) = [s1, s2] →
      numKeys signals ≤ limit →
      ∃ m : Signal,
        (_merge_visual_signals signals limit).filter
            (fun s => decide (sigKey s = sigKey s1)) = [m] ∧
        (∀ x, x ∈ m.signal_types ↔ x ∈ s1.signal_types ∨ x ∈ s2.signal_types) ∧
        m.score = max s1.score s2.score ∧
        m.significance = _significance_bucket m.score ∧
        m.file = s1.file ∧ m.page = s1.page ∧ m.text = s1.text) := by
  have hkeys : ((foldUpsert signals).map Prod.fst).Nodup :=
    nodup_keys_foldUpsertFrom signals [] (by simp)
  have hinv : keyInvariant (foldUpsert signals) :=
    keyInvariant_foldUpsertFrom signals [] (by intro e he; simp at he)
  have hvalkeys : (foldUpsert signals).map Prod.fst =
      ((foldUpsert signals).map Prod.snd).map sigKey := by
    rw [List.map_map]
    exact (List.map_congr_left (fun e he => (hinv e he).symm))
  constructor
  · have hnodup2 : (((foldUpsert signals).map Prod.snd).map sigKey).Nodup := by
      rw [← hvalkeys]; exact hkeys
    have hpw : List.Pairwise (fun a b => sigKey a ≠ sigKey b)
        ((foldUpsert signals).map Prod.snd) := by
      have := List.pairwise_map.mp hnodup2
      exact this
    have hpw2 : List.Pairwise (fun a b => sigKey a ≠ sigKey b)
        (pySorted sigLt ((foldUpsert signals).map Prod.snd)) := by
      refine ((pySorted_perm sigLt _).pairwise_iff (fun h => Ne.symm h)).mpr hpw
    exact List.Pairwise.sublist (List.take_sublist _ _) hpw2
  · intro s1 s2 hfilter hnum
    have hlook : lookupKey (foldUpsert signals) (sigKey s1) = some (mergeInto s1 s2) := by
      rw [foldUpsert, lookupKey_foldUpsertFrom signals [] (sigKey s1)]
      rw [hfilter]
      rfl
    have hvals : ((foldUpsert signals).map Prod.snd).filter
        (fun v => decide (sigKey v = sigKey s1)) = [mergeInto s1 s2] := by
      rw [filter_values_eq_lookup _ _ hkeys hinv, hlook]
      rfl
    have hlen : (pySorted sigLt ((foldUpsert signals).map Prod.snd)).length ≤ limit := by
      rw [(pySorted_perm sigLt _).length_eq, List.length_map, length_foldUpsert]
      exact hnum
    have htake : _merge_visual_signals signals limit =
        pySorted sigLt ((foldUpsert signals).map Prod.snd) := by
      unfold _merge_visual_signals
      exact List.take_of_length_le hlen
    refine ⟨mergeInto s1 s2, ?_, ?_, rfl, rfl, rfl, rfl, rfl⟩
    · rw [htake]
      have hperm := (pySorted_perm sigLt ((foldUpsert signals).map Prod.snd)).filter
        (fun v => decide (sigKey v = sigKey s1))
      rw [hvals] at hperm
      exact List.perm_singleton.mp hperm
    · intro x
      exact mem_sortedUnion _ _ x

/-- A low-scoring signal that collides with `capDup2` on the dedup key. -/
def capDup1 : Signal :=
  ⟨"f".data, 0, "dup".data, ["bold".data], mkRat 1 10, "low".data, "style".data⟩

/-- Case-equivalent duplicate of `capDup1` on the same (file, page). -/
def capDup2 : Signal :=
  ⟨"f".data, 0, "DUP".data, ["underline".data], mkRat 2 10, "low".data, "annotation".data⟩

/-- Forty strong filler signals with pairwise-distinct keys. -/
def capFiller (i : Nat) : Signal :=
  ⟨"f".data, i + 1, "x".data, ["highlight".data], 1, "high".data, "annotation".data⟩

/-- 42 raw signals over 41 distinct keys: the duplicated pair merges to the
lowest-ranked signal. -/
def capSignals : List Signal := capDup1 :: capDup2 :: (List.range 40).map capFiller

/-- **C2 (counterexample).** Two case-equivalent signals on the same
(file, page) do *not* always collapse to exactly one output signal of
`_merge_visual_signals`: with 41 distinct keys and the production cap of 40,
the merged pair ranks last and is cut, so the output contains *no* signal
with that key. -/
theorem merge_cap_drops_collapsed_signal_counterexample :
    sigKey capDup1 = sigKey capDup2 ∧
    capSignals.filter (fun s => decide (sigKey s = sigKey capDup1)) = [capDup1, capDup2] ∧
    (_merge_visual_signals capSignals MAX_VISUAL_SIGNALS_PER_FILE).filter
        (fun s => decide (sigKey s = sigKey capDup1)) = [] := by
  refine ⟨by decide, by decide, by decide⟩

/-- The underline signal of the specification's worked merge example. -/
def specExampleUnderline : Signal :=
  ⟨"a.pdf".data, 1, "Question 2".data, ["underline".data], mkRat 9 10, "medium".data,
    "annotation".data⟩

/-- The highlight signal of the specification's worked merge example. -/
def specExampleHighlight : Signal :=
  ⟨"a.pdf".data, 1, "question   2".data, ["highlight".data], mkRat 11 10, "high".data,
    "style".data⟩

/-- Witness for C2, on the specification's own example: merging
`{text:"Question 2", underline, 0.9}` with `{text:"question   2", highlight,
1.1}` yields one signal with both types, score 1.1 and significance
recomputed from 1.1. -/
theorem merge_visual_signals_dedup_and_union_witness :
    ([specExampleUnderline, specExampleHighlight].filter
        (fun s => decide (sigKey s = sigKey specExampleUnderline)) =
      [specExampleUnderline, specExampleHighlight]) ∧
    numKeys [specExampleUnderline, specExampleHighlight] ≤ MAX_VISUAL_SIGNALS_PER_FILE ∧
    ∃ m : Signal,
      (_merge_visual_signals [specExampleUnderline, specExampleHighlight]
            MAX_VISUAL_SIGNALS_PER_FILE).filter
          (fun s => decide (sigKey s = sigKey specExampleUnderline)) = [m] ∧
      (∀ x, x ∈ m.signal_types ↔
        x ∈ specExampleUnderline.signal_types ∨ x ∈ specExampleHighlight.signal_types) ∧
      m.score = max specExampleUnderline.score specExampleHighlight.score ∧
      m.significance = _significance_bucket m.score ∧
      m.file = specExampleUnderline.file ∧ m.page = specExampleUnderline.page ∧
      m.text = specExampleUnderline.text :=
  ⟨by decide, by decide,
    (merge_visual_signals_dedup_and_union [specExampleUnderline, specExampleHighlight]
        MAX_VISUAL_SIGNALS_PER_FILE).2
      specExampleUnderline specExampleHighlight (by decide) (by decide)⟩

/-! ## C4: the cross-page denoiser -/

/-- Spec wording: the number of pages whose candidate-signature set contains
the signature `p`. -/
def specPatternPageCount (page_texts : List Str) (p : Str) : Nat :=
  (page_texts.filter (fun t => decide (p ∈ pagePatterns t))).length

/-- Spec wording: the repetition threshold `max(3, ceil(0.60 × page_count))`. -/
def specThreshold (n : Nat) : Nat := max 3 (Int.toNat ⌈(n : ℚ) * (0.60 : ℚ)⌉)

theorem foldl_count (P : Str → Prop) [DecidablePred P] :
    ∀ (l : List Str) (a : Nat),
      l.foldl (fun cnt t => cnt + (if P t then 1 else 0)) a =
        a + (l.filter (fun t => decide (P t))).length := by
  intro l
  induction l with
  | nil => intro a; simp
  | cons t rest ih =>
    intro a
    rw [List.foldl_cons, ih, List.filter_cons]
    by_cases hP : P t
    · rw [if_pos hP, if_pos (by simpa using hP)]
      simp only [List.length_cons]
      omega
    · rw [if_neg hP, if_neg (by simpa using hP)]
      omega

theorem tallyPattern_eq_specCount (pages : List Str) (p : Str) (hp : p ≠ []) :
    tallyPattern pages p = specPatternPageCount pages p := by
  unfold tallyPattern specPatternPageCount
  rw [foldl_count (fun t => p ∈ pagePatterns t ∧ p ≠ []) pages 0]
  have hfc : pages.filter (fun t => decide (p ∈ pagePatterns t ∧ p ≠ [])) =
      pages.filter (fun t => decide (p ∈ pagePatterns t)) :=
    List.filter_congr (fun t _ => by simp [hp])
  rw [hfc]
  omega

theorem minOccurrences_eq_specThreshold (n : Nat) :
    minOccurrences n = specThreshold n := rfl

theorem mem_repeatedPatterns (pages : List Str) (p : Str) :
    p ∈ repeatedPatterns pages ↔
      p ≠ [] ∧ minOccurrences pages.length ≤ tallyPattern pages p := by
  unfold repeatedPatterns
  rw [List.mem_filter]
  constructor
  · rintro ⟨-, h⟩
    rw [Bool.and_eq_true, decide_eq_true_eq, decide_eq_true_eq] at h
    exact ⟨by simpa using h.1, h.2⟩
  · rintro ⟨h1, h2⟩
    refine ⟨?_, by rw [Bool.and_eq_true, decide_eq_true_eq, decide_eq_true_eq]; exact ⟨by simpa using h1, h2⟩⟩
    have hmin : 3 ≤ minOccurrences pages.length := le_max_left _ _
    have hpos : 0 < tallyPattern pages p := by omega
    rw [tallyPattern_eq_specCount pages p h1] at hpos
    unfold specPatternPageCount at hpos
    rw [List.length_pos] at hpos
    obtain ⟨t, ht⟩ := List.exists_mem_of_ne_nil _ hpos
    rw [List.mem_filter, decide_eq_true_eq] at ht
    rw [List.mem_dedup, List.mem_flatten]
    exact ⟨pagePatterns t, List.mem_map_of_mem pagePatterns ht.1, ht.2⟩

/-- First page of the concrete counterexample: `HEAD9` sits in the middle of
five non-blank lines, outside the first-2/last-2 candidate sample. -/
def cxPage1 : Str := "HEAD1\na b c\nHEAD9\nd e f\ng h i".data

def cxPage2 : Str := "HEAD2\nx1 y\nz w".data

def cxPage3 : Str := "HEAD3\nq r\ns t".data

/-- **C4 (counterexample).** Removal is *not* restricted to a page's
first-2/last-2 non-blank candidate lines: the middle line `HEAD9` of the first
page shares the digit-normalized signature `head#` with the repeated headers
and is removed from the page body even though it is not among that page's
candidate lines. -/
theorem header_removal_not_candidate_only_counterexample :
    _remove_repeated_headers_and_footers [cxPage1, cxPage2, cxPage3] =
      ["a b c\nd e f\ng h i".data, "x1 y\nz w".data, "q r\ns t".data] ∧
    "HEAD9".data ∈ pySplitlines cxPage1 ∧
    "HEAD9".data ∉ sampledLines cxPage1 ∧
    "HEAD9".data ∉ pySplitlines "a b c\nd e f\ng h i".data := by
  refine ⟨by decide, by decide, by decide, by decide⟩

/-- **C4 (amended).** For every list of per-page texts: with fewer than 3
pages the denoiser returns the list unchanged; if no non-empty signature
reaches the threshold `max(3, ceil(0.60 × page_count))` over the pages'
candidate samples (each page's first-2/last-2 non-blank lines of stripped
length 4-140, counted at most once per page), every page passes through
unchanged; and otherwise a line is removed from every page exactly when its
digit-normalized signature is non-empty and reaches that threshold —
regardless of the line's position on its page (kept lines are right-stripped
and each cleaned page is stripped of leading/trailing whitespace). -/
theorem remove_repeated_headers_characterization (pages : List Str) :
    (pages.length < HEADER_FOOTER_MIN_PAGES →
      _remove_repeated_headers_and_footers pages = pages) ∧
    ((∀ p : Str, p ≠ [] → specPatternPageCount pages p < specThreshold pages.length) →
      _remove_repeated_headers_and_footers pages = pages) ∧
    (HEADER_FOOTER_MIN_PAGES ≤ pages.length → repeatedPatterns pages ≠ [] →
      _remove_repeated_headers_and_footers pages = pages.map (fun t =>
        pyStrip (joinWith ['\n']
          (((pySplitlines t).filter (fun line =>
              !decide (_normalize_match_line line ≠ [] ∧
                specThreshold pages.length ≤
                  specPatternPageCount pages (_normalize_match_line line)))).map
            pyStripRight)))) := by
  have keepPred : ∀ line : Str,
      (!(repeatedPatterns pages).contains (_normalize_match_line line)) =
        (!decide (_normalize_match_line line ≠ [] ∧
          specThreshold pages.length ≤
            specPatternPageCount pages (_normalize_match_line line))) := by
    intro line
    congr 1
    rw [Bool.eq_iff_iff, List.elem_iff, decide_eq_true_eq,
      mem_repeatedPatterns pages (_normalize_match_line line)]
    constructor
    · rintro ⟨h1, h2⟩
      rw [tallyPattern_eq_specCount pages _ h1] at h2
      exact ⟨h1, h2⟩
    · rintro ⟨h1, h2⟩
      rw [← tallyPattern_eq_specCount pages _ h1] at h2
      exact ⟨h1, h2⟩
  refine ⟨?_, ?_, ?_⟩
  · intro h
    unfold _remove_repeated_headers_and_footers
    rw [if_pos h]
  · intro h
    by_cases hlen : pages.length < HEADER_FOOTER_MIN_PAGES
    · unfold _remove_repeated_headers_and_footers
      rw [if_pos hlen]
    · have hrep : repeatedPatterns pages = [] := by
        rw [List.eq_nil_iff_forall_not_mem]
        intro p hp
        rw [mem_repeatedPatterns] at hp
        obtain ⟨h1, h2⟩ := hp
        rw [tallyPattern_eq_specCount pages p h1,
          minOccurrences_eq_specThreshold] at h2
        exact absurd h2 (not_le.mpr (h p h1))
      unfold _remove_repeated_headers_and_footers
      rw [if_neg hlen]
      simp [hrep]
  · intro h3 hne
    unfold _remove_repeated_headers_and_footers
    rw [if_neg (by omega)]
    rw [if_neg hne]
    refine List.map_congr_left (fun t _ => ?_)
    congr 1
    congr 1
    congr 1
    exact List.filter_congr (fun line _ => keepPred line)

/-- Witness for C4: a 2-page document is left untouched (part one), and on
the specification's worked 3-page example the denoised pages are exactly the
lines whose signatures stay below the threshold (part three). -/
theorem remove_repeated_headers_characterization_witness :
    (([ "a".data, "b".data ] : List Str).length < HEADER_FOOTER_MIN_PAGES ∧
      _remove_repeated_headers_and_footers ["a".data, "b".data] = ["a".data, "b".data]) ∧
    (HEADER_FOOTER_MIN_PAGES ≤
        ([ "Course X\nBody one\nPage 1 of 3".data, "Course X\nBody two\nPage 2 of 3".data,
           "Course X\nBody three\nPage 3 of 3".data ] : List Str).length ∧
      repeatedPatterns
          [ "Course X\nBody one\nPage 1 of 3".data, "Course X\nBody two\nPage 2 of 3".data,
            "Course X\nBody three\nPage 3 of 3".data ] ≠ [] ∧
      _remove_repeated_headers_and_footers
          [ "Course X\nBody one\nPage 1 of 3".data, "Course X\nBody two\nPage 2 of 3".data,
            "Course X\nBody three\nPage 3 of 3".data ] =
        ([ "Course X\nBody one\nPage 1 of 3".data, "Course X\nBody two\nPage 2 of 3".data,
           "Course X\nBody three\nPage 3 of 3".data ] : List Str).map (fun t =>
          pyStrip (joinWith ['\n']
            (((pySplitlines t).filter (fun line =>
                !decide (_normalize_match_line line ≠ [] ∧
                  specThreshold
                      ([ "Course X\nBody one\nPage 1 of 3".data,
                         "Course X\nBody two\nPage 2 of 3".data,
                         "Course X\nBody three\nPage 3 of 3".data ] : List Str).length ≤
                    specPatternPageCount
                      [ "Course X\nBody one\nPage 1 of 3".data,
                        "Course X\nBody two\nPage 2 of 3".data,
                        "Course X\nBody three\nPage 3 of 3".data ]
                      (_normalize_match_line line)))).map
              pyStripRight)))) :=
  ⟨⟨by decide,
    (remove_repeated_headers_characterization ["a".data, "b".data]).1 (by decide)⟩,
   by decide, by decide,
    (remove_repeated_headers_characterization
        [ "Course X\nBody one\nPage 1 of 3".data, "Course X\nBody two\nPage 2 of 3".data,
          "Course X\nBody three\nPage 3 of 3".data ]).2.2 (by decide) (by decide)⟩

/-! ## C10: the denoiser preserves page count and line provenance -/

/-- **C10 (counterexample).** An output page does not always consist only of
(trailing-whitespace-stripped) lines of the corresponding input page: after
the repeated header `HEAD1` is removed, the final strip of the whole page also
removes the *leading* whitespace of the first kept line, so the output line
`x a` is not among the input page's right-stripped lines. -/
theorem denoiser_first_line_lstrip_counterexample :
    _remove_repeated_headers_and_footers
        ["HEAD1\n  x a\ny".data, "HEAD2\nb c\ne".data, "HEAD3\nf g\nh".data] =
      ["x a\ny".data, "b c\ne".data, "f g\nh".data] ∧
    "x a".data ∈ pySplitlines "x a\ny".data ∧
    "x a".data ∉ (pySplitlines "HEAD1\n  x a\ny".data).map pyStripRight := by
  refine ⟨by decide, by decide, by decide⟩

/-- **C10 (amended).** The denoiser returns a list of exactly the same
length; each output page is either the corresponding input page unchanged
(when the page count is below 3 or no signature repeats) or is built from a
subsequence of that page's right-stripped lines, in their original order,
joined with newlines and stripped of leading/trailing whitespace as a whole
(which can drop boundary blank lines and the first line's leading
whitespace); so when document assembly zips the extracted pages with the
denoised texts, every page is paired with its own denoised text. -/
theorem denoiser_length_and_line_provenance (pages : List Str) :
    ((_remove_repeated_headers_and_footers pages).length = pages.length) ∧
    (∀ i (hi : i < pages.length),
      (_remove_repeated_headers_and_footers pages).get? i = pages.get? i ∨
      ∃ kept : List Str,
        kept.Sublist ((pySplitlines pages[i]).map pyStripRight) ∧
        (_remove_repeated_headers_and_footers pages).get? i =
          some (pyStrip (joinWith ['\n'] kept))) ∧
    (∀ eps : List ExtractedPage,
      ((eps.zip
          (_remove_repeated_headers_and_footers (eps.map (fun p => p.text)))).map
        Prod.fst) = eps) := by
  have hlen : ∀ ps : List Str,
      (_remove_repeated_headers_and_footers ps).length = ps.length := by
    intro ps
    by_cases h1 : ps.length < HEADER_FOOTER_MIN_PAGES
    · unfold _remove_repeated_headers_and_footers
      rw [if_pos h1]
    · by_cases h2 : repeatedPatterns ps = []
      · unfold _remove_repeated_headers_and_footers
        rw [if_neg h1]
        simp [h2]
      · unfold _remove_repeated_headers_and_footers
        rw [if_neg h1, if_neg h2]
        exact List.length_map _ _
  refine ⟨hlen pages, ?_, ?_⟩
  · intro i hi
    by_cases h1 : pages.length < HEADER_FOOTER_MIN_PAGES
    · refine Or.inl ?_
      unfold _remove_repeated_headers_and_footers
      rw [if_pos h1]
    · by_cases h2 : repeatedPatterns pages = []
      · refine Or.inl ?_
        unfold _remove_repeated_headers_and_footers
        rw [if_neg h1]
        simp [h2]
      · have hmap : _remove_repeated_headers_and_footers pages = pages.map (fun text =>
            pyStrip (joinWith ['\n']
              (((pySplitlines text).filter (fun line =>
                  !((repeatedPatterns pages).contains (_normalize_match_line line)))).map
                pyStripRight))) := by
          unfold _remove_repeated_headers_and_footers
          rw [if_neg h1, if_neg h2]
        refine Or.inr ⟨((pySplitlines pages[i]).filter
          (fun line => !((repeatedPatterns pages).contains (_normalize_match_line line)))).map
            pyStripRight, ?_, ?_⟩
        · exact List.Sublist.map pyStripRight (List.filter_sublist _)
        · rw [hmap, List.get?_eq_getElem?, List.getElem?_map,
            List.getElem?_eq_getElem hi]
          rfl
  · intro eps
    refine List.map_fst_zip _ _ ?_
    rw [hlen]
    exact le_of_eq (List.length_map _ _).symm

/-- Witness for C10: on the counterexample document, page 0's denoised text
is a stripped newline-join of a subsequence of its right-stripped lines. -/
theorem denoiser_length_and_line_provenance_witness :
    (0 : Nat) < (["HEAD1\n  x a\ny".data, "HEAD2\nb c\ne".data, "HEAD3\nf g\nh".data] :
        List Str).length ∧
    ((_remove_repeated_headers_and_footers
        ["HEAD1\n  x a\ny".data, "HEAD2\nb c\ne".data, "HEAD3\nf g\nh".data]).get? 0 =
      (["HEAD1\n  x a\ny".data, "HEAD2\nb c\ne".data, "HEAD3\nf g\nh".data] :
        List Str).get? 0 ∨
    ∃ kept : List Str,
      kept.Sublist ((pySplitlines ((["HEAD1\n  x a\ny".data, "HEAD2\nb c\ne".data,
          "HEAD3\nf g\nh".data] : List Str).get ⟨0, by decide⟩)).map pyStripRight) ∧
      (_remove_repeated_headers_and_footers
          ["HEAD1\n  x a\ny".data, "HEAD2\nb c\ne".data, "HEAD3\nf g\nh".data]).get? 0 =
        some (pyStrip (joinWith ['\n'] kept))) :=
  ⟨by decide,
    (denoiser_length_and_line_provenance
        ["HEAD1\n  x a\ny".data, "HEAD2\nb c\ne".data, "HEAD3\nf g\nh".data]).2.1
      0 (by decide)⟩

/-! ## C1: idempotence of `_normalize_page_text`

The normalizer is not idempotent in general (counterexample below): the final
whitespace collapse can erase the internal multi-space run that made a line
"structural", so a second pass reflows it.  It is idempotent on every input
whose normal form is *canonical* in the following sense. -/

/-- A line that `_unwrap_hard_line_breaks` buffers into a paragraph: non-blank
and not structural. -/
def flowLine (ℓ : Str) : Bool := !decide (ℓ = []) && !_looks_like_structural_line ℓ

/-- Two consecutive lines that survive a second normalization pass unchanged:
not both blank, not both flow lines. -/
def adjacentOk (a b : Str) : Prop :=
  ¬(a = [] ∧ b = []) ∧ ¬(flowLine a = true ∧ flowLine b = true)

instance : DecidableRel adjacentOk := fun a b =>
  inferInstanceAs (Decidable
    (¬(a = [] ∧ b = []) ∧ ¬(flowLine a = true ∧ flowLine b = true)))

/-- Kernel-reducible decidability for chains of `adjacentOk`. -/
instance decChainAdjacentOk : (l : List Str) → Decidable (List.Chain' adjacentOk l)
  | [] => isTrue trivial
  | [_] => isTrue List.Chain.nil
  | a :: b :: l =>
    have : Decidable (List.Chain' adjacentOk (b :: l)) := decChainAdjacentOk (b :: l)
    decidable_of_iff (adjacentOk a b ∧ List.Chain' adjacentOk (b :: l)) List.chain'_cons.symm

/-- A canonical string: empty, or free of `\r`/`\t`/`\v`/`\f`/NBSP, a fixed
point of dehyphenation and stripping, with every line collapse-stable and
stripped, no blank line at either end, and no two adjacent blank lines or
adjacent flow lines. -/
def Canonical (s : Str) : Prop :=
  s = [] ∨
  ((∀ c ∈ s, ¬(c = '\r' ∨ c = '\t' ∨ c = '\x0b' ∨ c = '\x0c' ∨ c = '\u00A0')) ∧
   dehyph s = s ∧
   pyStrip s = s ∧
   (∀ ℓ ∈ pySplitlines s, collapseSpaceTab ℓ = ℓ ∧ pyStrip ℓ = ℓ) ∧
   (pySplitlines s).head? ≠ some [] ∧
   (pySplitlines s).getLast? ≠ some [] ∧
   List.Chain' adjacentOk (pySplitlines s))

instance : DecidablePred Canonical := fun s =>
  inferInstanceAs (Decidable
    (s = [] ∨
     ((∀ c ∈ s, ¬(c = '\r' ∨ c = '\t' ∨ c = '\x0b' ∨ c = '\x0c' ∨ c = '\u00A0')) ∧
      dehyph s = s ∧
      pyStrip s = s ∧
      (∀ ℓ ∈ pySplitlines s, collapseSpaceTab ℓ = ℓ ∧ pyStrip ℓ = ℓ) ∧
      (pySplitlines s).head? ≠ some [] ∧
      (pySplitlines s).getLast? ≠ some [] ∧
      List.Chain' adjacentOk (pySplitlines s))))

/-- **C1 (counterexample).** Normalization is not idempotent: in
`"a  b\nhello"` the double space makes the first line structural (a tabular
hint), so the first pass keeps the line break but collapses the double space;
the second pass then sees two flow lines and joins them into one paragraph. -/
theorem normalize_page_text_not_idempotent_counterexample :
    _normalize_page_text (_normalize_page_text "a  b\nhello".data) ≠
      _normalize_page_text "a  b\nhello".data ∧
    _normalize_page_text "a  b\nhello".data = "a b\nhello".data ∧
    _normalize_page_text "a b\nhello".data = "a b hello".data := by
  refine ⟨by decide, by decide, by decide⟩

theorem intercalate_singleton (sep x : Str) : List.intercalate sep [x] = x := by
  simp [List.intercalate]

theorem intercalate_cons_of_ne_nil (sep x : Str) (xs : List Str) (h : xs ≠ []) :
    List.intercalate sep (x :: xs) = x ++ sep ++ List.intercalate sep xs := by
  obtain ⟨y, t, rfl⟩ := List.exists_cons_of_ne_nil h
  simp [List.intercalate, List.intersperse]

theorem pySplitlinesGo_ne_nil (s acc : Str) (h : acc ≠ [] ∨ s ≠ []) :
    pySplitlinesGo acc s ≠ [] := by
  induction acc, s using pySplitlinesGo.induct with
  | case1 => simp at h
  | case2 acc hacc => simp [pySplitlinesGo, hacc]
  | case3 acc rest ih => simp [pySplitlinesGo]
  | case4 acc c rest hne hbr ih => simp [pySplitlinesGo, hbr]
  | case5 acc c rest hne hbr ih =>
    rw [show pySplitlinesGo acc (c :: rest) = pySplitlinesGo (c :: acc) rest from by
      simp [pySplitlinesGo, hbr]]
    exact ih (Or.inl (by simp))

theorem pySplitlinesGo_inverse (s : Str) :
    ∀ acc : Str,
      (∀ c ∈ s, c = '\n' ∨ isLineBreakChar c = false) →
      s.getLast? ≠ some '\n' →
      (acc ≠ [] ∨ s ≠ []) →
      List.intercalate ['\n'] (pySplitlinesGo acc s) = acc.reverse ++ s := by
  induction s with
  | nil =>
    intro acc _ _ hne
    rcases hne with hne | hne
    · rw [show pySplitlinesGo acc [] = [acc.reverse] from by simp [pySplitlinesGo, hne]]
      simp [intercalate_singleton]
    · exact absurd rfl hne
  | cons c rest ih =>
    intro acc hbr hlast _
    rcases hbr c (List.mem_cons_self c rest) with hc | hc
    · subst hc
      rw [show pySplitlinesGo acc ('\n' :: rest) = acc.reverse :: pySplitlinesGo [] rest from by
        simp [pySplitlinesGo, isLineBreakChar]]
      rcases List.eq_nil_or_concat rest with hrest | _
      · subst hrest
        simp at hlast
      · have hrest : rest ≠ [] := by
          rcases rest with _ | ⟨y, t⟩
          · rename_i hcon
            obtain ⟨l, a, hla⟩ := hcon
            exact absurd hla.symm (List.concat_ne_nil a l)
          · simp
        have hgo : pySplitlinesGo [] rest ≠ [] := pySplitlinesGo_ne_nil rest [] (Or.inr hrest)
        rw [intercalate_cons_of_ne_nil _ _ _ hgo]
        rw [ih [] (fun d hd => hbr d (List.mem_cons_of_mem _ hd)) ?hl (Or.inr hrest)]
        · simp
        case hl =>
          obtain ⟨y, t, rfl⟩ := List.exists_cons_of_ne_nil hrest
          rw [← List.getLast?_cons_cons (a := '\n')] at hlast ⊢
          exact hlast
    · have hcn : c ≠ '\n' := by
        intro hcc
        rw [hcc] at hc
        simp [isLineBreakChar] at hc
      have hcr : ¬(c = '\r' ∧ rest.head? = some '\n') := by
        rintro ⟨hcc, -⟩
        rw [hcc] at hc
        simp [isLineBreakChar] at hc
      rw [show pySplitlinesGo acc (c :: rest) = pySplitlinesGo (c :: acc) rest from by
        rcases rest with _ | ⟨d, t⟩
        · simp [pySplitlinesGo, hc]
        · by_cases hd : c = '\r' ∧ d = '\n'
          · exact absurd ⟨hd.1, by rw [hd.2]; rfl⟩ hcr
          · rcases eq_or_ne c '\r' with hcc | hcc
            · rw [hcc] at hc
              exact absurd hc (by decide)
            · simp [pySplitlinesGo, hc, hcc]]
      rcases List.eq_nil_or_concat rest with hrest | _
      · subst hrest
        rw [ih (c :: acc) (by simp) (by simp) (Or.inl (by simp))]
        simp
      · have hrest : rest ≠ [] := by
          rename_i hcon
          obtain ⟨l, a, hla⟩ := hcon
          rw [hla]
          exact List.concat_ne_nil a l
        rw [ih (c :: acc) (fun d hd => hbr d (List.mem_cons_of_mem c hd)) ?hl2 (Or.inl (by simp))]
        · simp
        case hl2 =>
          obtain ⟨y, t, rfl⟩ := List.exists_cons_of_ne_nil hrest
          rw [← List.getLast?_cons_cons (a := c)] at hlast ⊢
          exact hlast

theorem intercalate_pySplitlines (s : Str)
    (hbr : ∀ c ∈ s, c = '\n' ∨ isLineBreakChar c = false)
    (hlast : s.getLast? ≠ some '\n') :
    List.intercalate ['\n'] (pySplitlines s) = s := by
  rcases eq_or_ne s [] with rfl | hne
  · rfl
  · simpa using pySplitlinesGo_inverse s [] hbr hlast (Or.inr hne)

theorem replaceCrlf_eq_self (s : Str) (h : ∀ c ∈ s, c ≠ '\r') : replaceCrlf s = s := by
  induction s with
  | nil => rfl
  | cons c rest ih =>
    have hc : c ≠ '\r' := h c (List.mem_cons_self c rest)
    have heq : replaceCrlf (c :: rest) = c :: replaceCrlf rest := by
      rcases rest with _ | ⟨d, t⟩
      · simp [replaceCrlf]
      · rcases eq_or_ne c '\r' with hcc | hcc
        · exact absurd hcc hc
        · simp [replaceCrlf, hcc]
    rw [heq, ih (fun d hd => h d (List.mem_cons_of_mem c hd))]

theorem replaceCr_eq_self (s : Str) (h : ∀ c ∈ s, c ≠ '\r') : replaceCr s = s := by
  unfold replaceCr
  calc s.map (fun c => if c = '\r' then '\n' else c) = s.map id :=
        List.map_congr_left (fun c hc => by rw [if_neg (h c hc)]; rfl)
    _ = s := List.map_id s

theorem replaceNbsp_eq_self (s : Str) (h : ∀ c ∈ s, c ≠ '\u00A0') : replaceNbsp s = s := by
  unfold replaceNbsp
  calc s.map (fun c => if c = '\u00A0' then ' ' else c) = s.map id :=
        List.map_congr_left (fun c hc => by rw [if_neg (h c hc)]; rfl)
    _ = s := List.map_id s

theorem pyStripLeft_eq_self_of_strip (s : Str) (h : pyStrip s = s) : pyStripLeft s = s := by
  have h1 : (pyStripLeft s).length ≤ s.length :=
    (List.dropWhile_sublist pyIsSpace).length_le
  have h2 : (pyStrip s).length ≤ (pyStripLeft s).length := by
    unfold pyStrip pyStripRight
    rw [List.length_reverse]
    calc ((pyStripLeft s).reverse.dropWhile pyIsSpace).length
        ≤ (pyStripLeft s).reverse.length := (List.dropWhile_sublist pyIsSpace).length_le
      _ = (pyStripLeft s).length := List.length_reverse _
  have hlen : (pyStripLeft s).length = s.length := by
    rw [h] at h2
    omega
  exact (List.dropWhile_sublist pyIsSpace).eq_of_length hlen

theorem pyStripRight_eq_self_of_strip (s : Str) (h : pyStrip s = s) : pyStripRight s = s := by
  have h1 := pyStripLeft_eq_self_of_strip s h
  unfold pyStrip at h
  rw [h1] at h
  exact h

theorem pyStrip_getLast_not_space (s : Str) (h : pyStrip s = s) (c : Char)
    (hc : s.getLast? = some c) : pyIsSpace c = false := by
  by_contra hsp
  rw [Bool.not_eq_false] at hsp
  have hr := pyStripRight_eq_self_of_strip s h
  have hrev : s.reverse.head? = some c := by
    rw [List.head?_reverse]
    exact hc
  obtain ⟨t, ht⟩ : ∃ t, s.reverse = c :: t := by
    rcases hs : s.reverse with _ | ⟨d, t⟩
    · rw [hs] at hrev; simp at hrev
    · rw [hs] at hrev
      simp at hrev
      exact ⟨t, by rw [hrev]⟩
  have hlen : (pyStripRight s).length < s.length := by
    unfold pyStripRight
    rw [List.length_reverse, ht, List.dropWhile_cons_of_pos hsp]
    calc (t.dropWhile pyIsSpace).length ≤ t.length :=
          (List.dropWhile_sublist pyIsSpace).length_le
      _ < (c :: t).length := by simp
      _ = s.reverse.length := by rw [ht]
      _ = s.length := List.length_reverse s
  rw [hr] at hlen
  omega

theorem pyStrip_head_not_space (s : Str) (h : pyStrip s = s) (c : Char)
    (hc : s.head? = some c) : pyIsSpace c = false := by
  by_contra hsp
  rw [Bool.not_eq_false] at hsp
  have hl := pyStripLeft_eq_self_of_strip s h
  obtain ⟨t, ht⟩ : ∃ t, s = c :: t := by
    rcases hs : s with _ | ⟨d, t⟩
    · rw [hs] at hc; simp at hc
    · rw [hs] at hc
      simp at hc
      exact ⟨t, by rw [hc]⟩
  have : (pyStripLeft s).length < s.length := by
    unfold pyStripLeft
    rw [ht, List.dropWhile_cons_of_pos hsp]
    calc (t.dropWhile pyIsSpace).length ≤ t.length :=
          (List.dropWhile_sublist pyIsSpace).length_le
      _ < (c :: t).length := by simp
  rw [hl] at this
  omega

theorem unwrapPhase2_id (L : List Str) :
    ∀ b : Bool,
      (∀ ℓ ∈ L, pyStrip (collapseSpaceTab ℓ) = ℓ) →
      List.Chain' (fun a b' => ¬(a = [] ∧ b' = [])) L →
      (b = true → L.head? ≠ some []) →
      unwrapPhase2 b L = L := by
  induction L with
  | nil => intro b _ _ _; rfl
  | cons ℓ rest ih =>
    intro b hst hch hb
    rw [List.chain'_cons'] at hch
    rcases eq_or_ne ℓ [] with rfl | hne
    · cases b with
      | true => exact absurd rfl (hb rfl)
      | false =>
        rw [show unwrapPhase2 false ([] :: rest) = [] :: unwrapPhase2 true rest from by
          simp [unwrapPhase2]]
        rw [ih true (fun x hx => hst x (List.mem_cons_of_mem _ hx)) hch.2 ?hd]
        case hd =>
          intro _
          rcases hh : rest.head? with _ | y
          · simp
          · have h0 := hch.1 y hh
            intro hcon
            exact h0 ⟨rfl, Option.some.inj hcon⟩
    · rw [show unwrapPhase2 b (ℓ :: rest) = pyStrip (collapseSpaceTab ℓ) :: unwrapPhase2 false rest
        from by simp [unwrapPhase2, hne]]
      rw [hst ℓ (List.mem_cons_self _ _),
        ih false (fun x hx => hst x (List.mem_cons_of_mem _ hx)) hch.2 (by simp)]

theorem joinSpace_singleton (x : Str) : joinSpace [x] = x :=
  intercalate_singleton [' '] x

theorem flushBuffer_nil_buf (out : List Str) : flushBuffer out [] = out := by
  simp [flushBuffer]

theorem flushBuffer_single (out : List Str) (x : Str) : flushBuffer out [x] = out ++ [x] := by
  simp [flushBuffer, joinSpace_singleton]

theorem unwrapPhase1_cons (raw : Str) (rest out buf : List Str) :
    unwrapPhase1 (raw :: rest) out buf =
      if pyStrip raw = [] then
        unwrapPhase1 rest
          (if flushBuffer out buf ≠ [] ∧ (flushBuffer out buf).getLast? ≠ some []
           then flushBuffer out buf ++ [[]]
           else flushBuffer out buf) []
      else if _looks_like_structural_line (pyStrip raw) = true then
        unwrapPhase1 rest (flushBuffer out buf ++ [pyStrip raw]) []
      else unwrapPhase1 rest out (buf ++ [pyStrip raw]) := rfl

theorem unwrapPhase1_id (L : List Str) :
    ∀ (out buf : List Str),
      (∀ ℓ ∈ L, pyStrip ℓ = ℓ) →
      (buf = [] ∨ ∃ ℓb, buf = [ℓb] ∧ flowLine ℓb = true) →
      List.Chain' adjacentOk (buf ++ L) →
      (buf = [] → L.head? = some [] → out ≠ [] ∧ out.getLast? ≠ some []) →
      unwrapPhase1 L out buf = out ++ buf ++ L := by
  induction L with
  | nil =>
    intro out buf _ hbuf _ _
    rcases hbuf with rfl | ⟨ℓb, rfl, -⟩
    · rw [show unwrapPhase1 [] out [] = flushBuffer out [] from rfl, flushBuffer_nil_buf]
      simp
    · rw [show unwrapPhase1 [] out [ℓb] = flushBuffer out [ℓb] from rfl, flushBuffer_single]
      simp
  | cons raw rest ih =>
    intro out buf hst hbuf hch hbl
    have hraw : pyStrip raw = raw := hst raw (List.mem_cons_self _ _)
    have hstrest : ∀ ℓ ∈ rest, pyStrip ℓ = ℓ := fun ℓ hℓ => hst ℓ (List.mem_cons_of_mem _ hℓ)
    rcases eq_or_ne raw [] with rfl | hne
    · -- blank line: flush the buffer, then append one blank separator
      rw [unwrapPhase1_cons, if_pos (show pyStrip ([] : Str) = [] from rfl)]
      rcases hbuf with rfl | ⟨ℓb, rfl, hflow⟩
      · obtain ⟨ho1, ho2⟩ := hbl rfl rfl
        rw [flushBuffer_nil_buf, if_pos ⟨ho1, ho2⟩]
        rw [List.nil_append, List.chain'_cons'] at hch
        rw [ih (out ++ [[]]) [] hstrest (Or.inl rfl) (by simpa using hch.2) ?hbl2]
        · simp
        case hbl2 =>
          intro _ hh
          exfalso
          rcases hhh : rest.head? with _ | y
          · rw [hhh] at hh; exact Option.noConfusion hh
          · have h0 := hch.1 y hhh
            rw [hhh] at hh
            exact h0.1 ⟨rfl, Option.some.inj hh⟩
      · have hbne : ℓb ≠ [] := by
          rcases eq_or_ne ℓb [] with rfl | hh
          · simp [flowLine] at hflow
          · exact hh
        rw [flushBuffer_single, if_pos ⟨by simp, by rw [List.getLast?_concat]; simp [hbne]⟩]
        rw [List.cons_append, List.nil_append, List.chain'_cons', List.chain'_cons'] at hch
        rw [ih ((out ++ [ℓb]) ++ [[]]) [] hstrest (Or.inl rfl) (by simpa using hch.2.2) ?hbl3]
        · simp
        case hbl3 =>
          intro _ hh
          exfalso
          rcases hhh : rest.head? with _ | y
          · rw [hhh] at hh; exact Option.noConfusion hh
          · have h0 := hch.2.1 y hhh
            rw [hhh] at hh
            exact h0.1 ⟨rfl, Option.some.inj hh⟩
    · rw [unwrapPhase1_cons, hraw, if_neg hne]
      by_cases hstruct : _looks_like_structural_line raw = true
      · -- structural line: flush, then emit verbatim
        rw [if_pos hstruct]
        rcases hbuf with rfl | ⟨ℓb, rfl, hflow⟩
        · rw [flushBuffer_nil_buf]
          rw [List.nil_append, List.chain'_cons'] at hch
          rw [ih (out ++ [raw]) [] hstrest (Or.inl rfl) (by simpa using hch.2) ?hbl4]
          · simp
          case hbl4 =>
            intro _ _
            exact ⟨by simp, by rw [List.getLast?_concat]; simp [hne]⟩
        · rw [flushBuffer_single]
          rw [List.cons_append, List.nil_append, List.chain'_cons', List.chain'_cons'] at hch
          rw [ih ((out ++ [ℓb]) ++ [raw]) [] hstrest (Or.inl rfl) (by simpa using hch.2.2) ?hbl5]
          · simp
          case hbl5 =>
            intro _ _
            exact ⟨by simp, by rw [List.getLast?_concat]; simp [hne]⟩
      · -- flow line: buffer it
        rw [if_neg hstruct]
        have hflraw : flowLine raw = true := by
          simp [flowLine, hne, hstruct]
        rcases hbuf with rfl | ⟨ℓb, rfl, hflow⟩
        · rw [List.nil_append] at hch
          have hrec : unwrapPhase1 rest out [raw] = out ++ [raw] ++ rest :=
            ih out [raw] hstrest (Or.inr ⟨raw, rfl, hflraw⟩) (by simpa using hch)
              (fun hh => absurd hh (by simp))
          calc unwrapPhase1 rest out ([] ++ [raw]) = unwrapPhase1 rest out [raw] := by
                rw [List.nil_append]
            _ = out ++ [raw] ++ rest := hrec
            _ = out ++ [] ++ raw :: rest := by simp
        · exfalso
          rw [List.cons_append, List.nil_append, List.chain'_cons'] at hch
          have h0 := hch.1 raw (by simp)
          exact h0.2 ⟨hflow, hflraw⟩

/-- A canonical string is a fixed point of `_normalize_page_text`. -/
theorem normalize_page_text_id_of_canonical (s : Str) (h : Canonical s) :
    _normalize_page_text s = s := by
  rcases eq_or_ne s [] with rfl | hne
  · rfl
  rcases h with rfl | ⟨hchar, hdeh, hstrip, hlines, hhead, hlast, hch⟩
  · exact absurd rfl hne
  unfold _normalize_page_text
  rw [if_neg hne]
  rw [replaceCrlf_eq_self s (fun c hc hcc => hchar c hc (Or.inl hcc)),
    replaceCr_eq_self s (fun c hc hcc => hchar c hc (Or.inl hcc)),
    replaceNbsp_eq_self s
      (fun c hc hcc => hchar c hc (Or.inr (Or.inr (Or.inr (Or.inr hcc)))))]
  rw [hdeh]
  unfold _unwrap_hard_line_breaks
  have hp1 : unwrapPhase1 (pySplitlines s) [] [] = pySplitlines s := by
    rw [unwrapPhase1_id (pySplitlines s) [] [] (fun ℓ hℓ => (hlines ℓ hℓ).2) (Or.inl rfl)
      (by simpa using hch) (fun _ hh => absurd hh hhead)]
    simp
  rw [hp1]
  have hp2 : unwrapPhase2 false (pySplitlines s) = pySplitlines s := by
    refine unwrapPhase2_id (pySplitlines s) false ?_ ?_ (by simp)
    · intro ℓ hℓ
      obtain ⟨hcℓ, hsℓ⟩ := hlines ℓ hℓ
      rw [hcℓ, hsℓ]
    · exact List.Chain'.imp (fun a b hab => hab.1) hch
  rw [hp2]
  have hj : List.intercalate ['\n'] (pySplitlines s) = s := by
    refine intercalate_pySplitlines s ?_ ?_
    · intro c hc
      by_cases hcn : c = '\n'
      · exact Or.inl hcn
      · refine Or.inr ?_
        have hx := hchar c hc
        push_neg at hx
        simp [isLineBreakChar, hcn, hx.1, hx.2.2.1, hx.2.2.2.1]
    · rcases hl : s.getLast? with _ | c
      · simp
      · have hns := pyStrip_getLast_not_space s hstrip c hl
        intro hcon
        rw [Option.some_inj] at hcon
        rw [hcon] at hns
        exact absurd hns (by decide)
  rw [show joinWith ['\n'] (pySplitlines s) = List.intercalate ['\n'] (pySplitlines s) from rfl,
    hj, hstrip, hstrip]

/-- **C1 (amended).** `_normalize_page_text` is not idempotent on all strings
(see the counterexample); it is idempotent on every input whose normal form is
canonical: free of `\r`/`\t`/`\v`/`\f`/NBSP, a fixed point of dehyphenation
and stripping, with every line whitespace-collapsed and stripped, no blank
line at either end, no two adjacent blank lines and no two adjacent
non-structural (flow) lines. -/
theorem normalize_page_text_idempotent_on_canonical (t : Str)
    (h : Canonical (_normalize_page_text t)) :
    _normalize_page_text (_normalize_page_text t) = _normalize_page_text t :=
  normalize_page_text_id_of_canonical _ h

/-- Witness for C1: a wrapped paragraph with a heading and a bullet
normalizes to a canonical string, and a second normalization leaves it
unchanged. -/
theorem normalize_page_text_idempotent_on_canonical_witness :
    Canonical (_normalize_page_text
      "This para-\ngraph wraps.\n\nKEY POINTS:\n- Keep this bullet.".data) ∧
    _normalize_page_text (_normalize_page_text
        "This para-\ngraph wraps.\n\nKEY POINTS:\n- Keep this bullet.".data) =
      _normalize_page_text
        "This para-\ngraph wraps.\n\nKEY POINTS:\n- Keep this bullet.".data :=
  ⟨by decide,
    normalize_page_text_idempotent_on_canonical
      "This para-\ngraph wraps.\n\nKEY POINTS:\n- Keep this bullet.".data (by decide)⟩

end RatKernelEval

end PdfTextService
